import Mathlib

/-!
Shallow embedding of the `ldappool` LDAP connection pool
(`ldappool/__init__.py`) and proofs about its pool engine.

The embedding models:
  * Python string/bytes values (`PyVal`) and `utf8_encode`;
  * `StateConnector` handles (`Handle`) with the fields the pool engine
    reads and writes (`connected`, `who`, `cred`, `_connection_time`,
    `active`), time being a natural-number clock;
  * `ConnectionManager._create_connector` as a pure function over a list
    of endpoint specifications, each endpoint described by the outcome of
    every connect-and-bind attempt against it; the function additionally
    returns the trace of attempts it executed;
  * `ConnectionManager._match`, `_get_connection`, `_release_connection`,
    `purge` and the acquisition retry loop of `connection` as pure
    transformers of an explicit pool state, with network nondeterminism
    (does a rebind succeed, does connection creation succeed) supplied by
    oracle parameters.
-/

/-- A Python `str` or `bytes` value, as used for bind identities and
credentials. -/
inductive PyVal where
  | str (s : String)
  | bytes (b : List UInt8)
deriving DecidableEq, Repr

/-- Embeds `utf8_encode` from the source: a `str` is encoded to UTF-8
bytes, `bytes` are returned unchanged.  (The `TypeError` branch for other
types is unrepresentable in `PyVal`.) -/
def utf8Encode : PyVal → PyVal
  | .str s => .bytes (s.data.flatMap String.utf8EncodeChar)
  | .bytes b => .bytes b

/-- The LDAP exception classes the pool engine distinguishes:
`INVALID_CREDENTIALS`, the transient classes `SERVER_DOWN`, `TIMEOUT`,
`NO_SUCH_OBJECT`, and any other `LDAPError`. -/
inductive LDAPErr where
  | invalidCredentials
  | serverDown
  | timeout
  | noSuchObject
  | other
deriving DecidableEq, Repr

/-- The transient class tested at the end of `_create_connector`:
`isinstance(exc, (ldap.NO_SUCH_OBJECT, ldap.SERVER_DOWN, ldap.TIMEOUT))`. -/
def LDAPErr.isTransient : LDAPErr → Bool
  | .serverDown => true
  | .timeout => true
  | .noSuchObject => true
  | _ => false

/-- Result of one connect-and-bind attempt against one endpoint. -/
inductive AttemptResult where
  | ok
  | err (e : LDAPErr)
deriving DecidableEq, Repr

/-- One configured endpoint: its address and, as an oracle, the result of
the n-th connect-and-bind attempt against it. -/
structure ServerSpec where
  name : String
  outcome : Nat → AttemptResult

/-- The connector object built by one creation attempt (the piece of
`StateConnector` identity `_create_connector` needs: which endpoint it
points at and which attempt built it). -/
structure Conn where
  server : String
  attempt : Nat
deriving DecidableEq, Repr

/-- Result of the per-endpoint retry loop inside `_create_connector`
(`while tries < self.retry_max and not connected`). -/
inductive InnerOut where
  | connected (c : Conn)
  | invalidCreds
  | exhausted (exc : Option LDAPErr) (conn : Option Conn)
deriving DecidableEq, Repr

/-- Embeds the per-endpoint retry loop of `_create_connector`: make a
fresh connector, try to bind; `INVALID_CREDENTIALS` is raised at once,
any other `LDAPError` is remembered in `exc` and the loop retries until
`retry_max` attempts are spent.  Also returns the list of attempt
indices actually executed. -/
def attemptLoop (s : ServerSpec) (tries : Nat) : Nat → Option LDAPErr → Option Conn →
    InnerOut × List Nat
  | 0, exc, conn => (.exhausted exc conn, [])
  | fuel + 1, _, _ =>
    let c : Conn := ⟨s.name, tries⟩
    match s.outcome tries with
    | .ok => (.connected c, [tries])
    | .err e =>
      if e = .invalidCredentials then
        (.invalidCreds, [tries])
      else
        let r := attemptLoop s (tries + 1) fuel (some e) (some c)
        (r.1, tries :: r.2)

/-- Result of `_create_connector` as a whole: a connector, an LDAP
exception re-raised as-is (invalid credentials, or a transient failure
after all endpoints are exhausted), or a `BackendError` wrapping the last
exception and carrying the last partially-constructed connector. -/
inductive CreateOut where
  | ok (c : Conn)
  | raised (e : LDAPErr)
  | backend (exc : Option LDAPErr) (conn : Option Conn)
deriving DecidableEq, Repr

/-- Embeds the endpoint loop of `_create_connector`: endpoints are tried
in order; the first successful bind wins; `INVALID_CREDENTIALS` aborts
everything; once every endpoint is exhausted the last endpoint's last
exception is re-raised if transient and otherwise wrapped in
`BackendError` together with the last partially-constructed connector.
The trace pairs are (endpoint index, attempt index) in execution order;
`last` carries the `exc`/`conn` locals of the most recent endpoint
iteration. -/
def createLoop (retryMax : Nat) (last : Option LDAPErr × Option Conn) :
    List ServerSpec → CreateOut × List (Nat × Nat)
  | [] =>
    match last.1 with
    | some e => if e.isTransient then (.raised e, []) else (.backend (some e) last.2, [])
    | none => (.backend none last.2, [])
  | s :: rest =>
    let r := attemptLoop s 0 retryMax none none
    let tr0 := r.2.map (fun a => ((0 : Nat), a))
    match r.1 with
    | .connected c => (.ok c, tr0)
    | .invalidCreds => (.raised .invalidCredentials, tr0)
    | .exhausted exc conn =>
      let r2 := createLoop retryMax (exc, conn) rest
      (r2.1, tr0 ++ r2.2.map (fun p => (p.1 + 1, p.2)))

/-- Embeds `ConnectionManager._create_connector` (the endpoint list is
the result of splitting `self.uri` on commas/whitespace, taken here as
given). -/
def createConnector (retryMax : Nat) (servers : List ServerSpec) :
    CreateOut × List (Nat × Nat) :=
  createLoop retryMax (none, none) servers

/-- The outcome recorded for endpoint `i`, attempt `a`, if endpoint `i`
exists. -/
def outcomeAt (servers : List ServerSpec) (i a : Nat) : Option AttemptResult :=
  (servers.get? i).map (fun s => s.outcome a)

/-- A pooled `StateConnector` as the pool engine sees it: the fields set
by `StateConnector.__init__`, `simple_bind_s`, `unbind_ext_s` and the
pool's `active` flag.  `cid` is the Python object identity (the pool
stores distinct objects, and `list.remove` removes by equality, which is
identity here).  Time is a natural-number clock; `connectionTime` models
`_connection_time` (`None` until the first successful bind). -/
structure Handle where
  cid : Nat
  connected : Bool
  who : Option PyVal
  cred : Option PyVal
  connectionTime : Option Nat
  active : Bool
deriving DecidableEq, Repr

/-- Embeds `StateConnector.get_lifetime`: `0` if `_connection_time` is
`None`, else `time.time() - _connection_time`. -/
def getLifetime (now : Nat) (h : Handle) : Nat :=
  match h.connectionTime with
  | none => 0
  | some t => now - t

/-- Embeds the successful path of `ConnectionManager._bind`: when `bind`
is not `None`, `simple_bind_s` records `connected`, `who`, `cred` and the
first-bind time; in every case `active` is set.  (A failing `_bind`
raises instead; callers model that through their oracles.) -/
def doBind (bind passwd : Option PyVal) (now : Nat) (h : Handle) : Handle :=
  match bind with
  | none => { h with active := true }
  | some b =>
    { h with
      connected := true
      who := some b
      cred := passwd
      connectionTime := match h.connectionTime with
        | some t => some t
        | none => some now
      active := true }

/-- Embeds the `finally` block of `StateConnector.unbind_ext_s`, which
runs whether or not the underlying unbind raises: `connected`, `who` and
`cred` are cleared. -/
def applyUnbind (h : Handle) : Handle :=
  { h with connected := false, who := none, cred := none }

/-- A connector fresh out of `StateConnector.__init__`: not connected,
`who` and `cred` the empty string, no connection time. -/
def freshHandle (cid : Nat) : Handle :=
  { cid := cid
    connected := false
    who := some (.str "")
    cred := some (.str "")
    connectionTime := none
    active := false }

/-- Removes the first handle with the given object identity (Python
`list.remove`). -/
def removeCid (cid : Nat) : List Handle → List Handle
  | [] => []
  | h :: rest => if h.cid = cid then rest else h :: removeCid cid rest

/-- Replaces the first handle with the given object identity by `v`
(in-place mutation of a pooled object seen through the list). -/
def replaceCid (cid : Nat) (v : Handle) : List Handle → List Handle
  | [] => []
  | h :: rest => if h.cid = cid then v :: rest else h :: replaceCid cid v rest

/-- Result of the scanning pass of `ConnectionManager._match`: either an
exact match was found (returned immediately) or the scan finished with a
list of rebind candidates.  `rev` is the surviving pool in reverse
insertion order (newest first), `inact` the candidates in scan order. -/
inductive Scan1Out where
  | found (sel : Handle) (rev : List Handle)
  | miss (rev : List Handle) (inact : List Handle)
deriving DecidableEq, Repr

/-- The surviving (reversed) pool of a scan result. -/
def Scan1Out.revPool : Scan1Out → List Handle
  | .found _ r => r
  | .miss r _ => r

/-- The rebind candidates of a scan result (empty when an exact match was
found). -/
def Scan1Out.cands : Scan1Out → List Handle
  | .found _ _ => []
  | .miss _ i => i

/-- Embeds the `for conn in reversed(self._pool)` pass of `_match`, run
on the reversed pool (newest handle first): active handles are skipped,
idle handles past `max_lifetime` are unbound and dropped, an idle handle
whose `(who, cred)` equals the requested pair is marked active and
returned at once, and every other idle handle is remembered as a rebind
candidate.  (The unbind attempted on an expired handle may fail; the
exception is swallowed and the handle is dropped either way, so the
result does not depend on it.) -/
def scan1 (bind passwd : Option PyVal) (now maxLifetime : Nat) :
    List Handle → Scan1Out
  | [] => .miss [] []
  | h :: rest =>
    if h.active then
      match scan1 bind passwd now maxLifetime rest with
      | .found sel rev => .found sel (h :: rev)
      | .miss rev inact => .miss (h :: rev) inact
    else if maxLifetime < getLifetime now h then
      scan1 bind passwd now maxLifetime rest
    else if h.who = bind ∧ h.cred = passwd then
      .found { h with active := true } ({ h with active := true } :: rest)
    else
      match scan1 bind passwd now maxLifetime rest with
      | .found sel rev => .found sel (h :: rev)
      | .miss rev inact => .miss (h :: rev) (h :: inact)

/-- Embeds the rebind loop of `_match`: candidates are tried in scan
order; `rebindOk` tells (by object identity) whether `self._bind` on the
candidate succeeds; a successful rebind returns the candidate (its
mutation visible in the pool), a failed one removes the candidate from
the pool and moves on. -/
def rebindLoop (bind passwd : Option PyVal) (now : Nat) (rebindOk : Nat → Bool)
    (rev : List Handle) : List Handle → List Handle × Option Handle
  | [] => (rev, none)
  | c :: cs =>
    if rebindOk c.cid then
      let c' := doBind bind passwd now c
      (replaceCid c.cid c' rev, some c')
    else
      rebindLoop bind passwd now rebindOk (removeCid c.cid rev) cs

/-- Embeds `ConnectionManager._match` as a pure function: returns the
pool after the call (in insertion order) and the selected handle, if
any. -/
def matchConn (bind passwd : Option PyVal) (now maxLifetime : Nat)
    (rebindOk : Nat → Bool) (pool : List Handle) : List Handle × Option Handle :=
  match scan1 bind passwd now maxLifetime pool.reverse with
  | .found sel rev => (rev.reverse, some sel)
  | .miss rev inact =>
    let r := rebindLoop bind passwd now rebindOk rev inact
    (r.1.reverse, r.2)

/-- Helper for the eviction step: drop the first inactive handle of a
list. -/
def removeFirstInactive : List Handle → List Handle
  | [] => []
  | h :: rest => if h.active then h :: removeFirstInactive rest else rest

/-- Embeds the eviction step of `ConnectionManager.connection` (run after
`_get_connection` raises `MaxConnectionReachedError`): iterate
`reversed(list(enumerate(self._pool)))` and pop the first handle found
with `active == False` — i.e. drop the first inactive handle of the
reversed pool. -/
def evictOne (pool : List Handle) : List Handle :=
  (removeFirstInactive pool.reverse).reverse

/-- Written from the spec sentence "evicts the single oldest-inserted,
currently idle handle", for comparison with `evictOne`: remove the first
inactive handle in insertion order (oldest first). -/
def evictOldestIdleSpec (pool : List Handle) : List Handle :=
  removeFirstInactive pool

def demoIdle : Handle :=
  { freshHandle 0 with who := some (.str "u"), cred := some (.str "p") }

/-- The `ConnectionManager` configuration fields the pool engine reads
(`size`, `retry_max`, `use_pool`, `max_lifetime`, and the default
`bind`/`passwd`). -/
structure Config where
  size : Nat
  retryMax : Nat
  usePool : Bool
  maxLifetime : Nat
  bind : Option PyVal
  passwd : Option PyVal

/-- The mutable state of a `ConnectionManager`: the pool list and a
counter supplying fresh object identities for newly created
connectors. -/
structure PoolState where
  pool : List Handle
  nextCid : Nat
deriving DecidableEq, Repr

/-- The nondeterminism of one `_get_connection` attempt: the current
clock, whether `self._bind` succeeds on each rebind candidate (by object
identity), and whether `_create_connector` would return a connector
(`true`) or raise (`false`). -/
structure StepEnv where
  now : Nat
  rebindOk : Nat → Bool
  createOk : Bool

/-- The arguments and environment of one call to
`ConnectionManager.connection`: the caller's `bind`/`passwd` (`none`
meaning the Python default `None`) and the environment of each retry of
the acquisition loop. -/
structure AcquireEnv where
  bind : Option PyVal
  passwd : Option PyVal
  steps : Nat → StepEnv

/-- Outcome of `_get_connection`: a connector, a raised
`MaxConnectionReachedError`, or an exception propagated from
`_create_connector`. -/
inductive GetOutcome where
  | ok (h : Handle)
  | maxReached
  | createFailed
deriving DecidableEq, Repr

/-- Embeds the argument defaulting of `_get_connection`/`purge`:
`if bind is None: bind = self.bind`. -/
def effCred (dflt v : Option PyVal) : Option PyVal :=
  match v with
  | none => dflt
  | some x => some x

/-- Embeds `ConnectionManager._get_connection`: default the credentials,
try `_match` when pooling, raise `MaxConnectionReachedError` when the
(post-match) pool has reached `size`, otherwise create a new connector
and append it to the pool (pooling) or just leave it active
(no pooling). -/
def getConnection (cfg : Config) (bind passwd : Option PyVal) (se : StepEnv)
    (st : PoolState) : PoolState × GetOutcome :=
  let b := effCred cfg.bind bind
  let p := effCred cfg.passwd passwd
  if cfg.usePool then
    let r := matchConn b p se.now cfg.maxLifetime se.rebindOk st.pool
    match r.2 with
    | some c => ({ st with pool := r.1 }, .ok c)
    | none =>
      if cfg.size ≤ r.1.length then
        ({ st with pool := r.1 }, .maxReached)
      else if se.createOk then
        let h := doBind b p se.now (freshHandle st.nextCid)
        ({ pool := r.1 ++ [h], nextCid := st.nextCid + 1 }, .ok h)
      else
        ({ st with pool := r.1 }, .createFailed)
  else
    if se.createOk then
      let h := { doBind b p se.now (freshHandle st.nextCid) with active := true }
      ({ st with nextCid := st.nextCid + 1 }, .ok h)
    else
      (st, .createFailed)

/-- Caller-visible outcome of the acquisition part of
`ConnectionManager.connection`: a connector, a final
`MaxConnectionReachedError`, or a propagated creation failure. -/
inductive AcquireResult where
  | ok (h : Handle)
  | exhausted
  | createFailed
deriving DecidableEq, Repr

/-- The eviction step applied to the whole state. -/
def evictState (st : PoolState) : PoolState :=
  { st with pool := evictOne st.pool }

/-- Embeds the `while tries < self.retry_max` loop of
`ConnectionManager.connection`: each `MaxConnectionReachedError` from
`_get_connection` increments `tries`, sleeps, and evicts the first
inactive connector going backward; any other exception propagates; when
the loop ends without a connector, `MaxConnectionReachedError` is
raised.  `fuel` is `retry_max - tries`. -/
def acquireLoop (cfg : Config) (env : AcquireEnv) (tries : Nat) :
    Nat → PoolState → PoolState × AcquireResult
  | 0, st => (st, .exhausted)
  | fuel + 1, st =>
    let r := getConnection cfg env.bind env.passwd (env.steps tries) st
    match r.2 with
    | .ok h => (r.1, .ok h)
    | .createFailed => (r.1, .createFailed)
    | .maxReached => acquireLoop cfg env (tries + 1) fuel (evictState r.1)

/-- Embeds the acquisition performed by `ConnectionManager.connection`
before yielding the connector to the caller. -/
def acquire (cfg : Config) (env : AcquireEnv) (st : PoolState) :
    PoolState × AcquireResult :=
  acquireLoop cfg env 0 cfg.retryMax st

/-- Result of `_release_connection`: the pool afterwards, the released
handle's state, and whether `unbind_ext_s` was attempted. -/
structure ReleaseOut where
  pool : List Handle
  handle : Handle
  didUnbind : Bool
deriving DecidableEq, Repr

/-- Embeds `ConnectionManager._release_connection`: with pooling, a
disconnected connector is removed from the pool and unbound, a connected
one is merely marked inactive and kept; without pooling the connector is
marked inactive and unbound.  A failing unbind is swallowed, and
`unbind_ext_s` clears its state fields in a `finally`, so the result does
not depend on the unbind outcome. -/
def releaseConnection (usePool : Bool) (h : Handle) (pool : List Handle) :
    ReleaseOut :=
  if usePool then
    if h.connected then
      { pool := replaceCid h.cid { h with active := false } pool
        handle := { h with active := false }
        didUnbind := false }
    else
      { pool := removeCid h.cid pool
        handle := applyUnbind h
        didUnbind := true }
  else
    { pool := pool
      handle := applyUnbind { h with active := false }
      didUnbind := true }

/-- The keep-condition of the purge loop: a connector survives `purge`
iff its `who` differs from the given bind, or a credential was given and
the stored `cred` equals its UTF-8 encoding. -/
def purgeKeep (bind : PyVal) (passwd : Option PyVal) (conn : Handle) : Bool :=
  if conn.who ≠ some bind then
    true
  else
    match passwd with
    | some pw => conn.cred = some (utf8Encode pw)
    | none => false

/-- Embeds `ConnectionManager.purge`: a no-op when pooling is enabled;
otherwise the given credential is UTF-8 encoded and every pooled
connector bound as `bind` whose `cred` differs from it (or every such
connector, when no credential is given) is unbound (failures swallowed)
and removed.  The loop iterates over a copy and removes by object
identity, which on a pool of distinct objects is a filter. -/
def purgeFn (usePool : Bool) (bind : PyVal) (passwd : Option PyVal)
    (pool : List Handle) : List Handle :=
  if usePool then pool
  else pool.filter (purgeKeep bind passwd)

/-- A public operation on the pool: a scoped acquisition (its `yield`ed
body abstracted away), the release of a previously acquired connector
(named by object identity), or a purge. -/
inductive Op where
  | acq (env : AcquireEnv)
  | release (cid : Nat)
  | purge (bind : PyVal) (passwd : Option PyVal)

/-- Applies one public operation to the pool state. -/
def runOp (cfg : Config) (st : PoolState) : Op → PoolState
  | .acq env => (acquire cfg env st).1
  | .release cid =>
    match st.pool.find? (fun h => h.cid = cid) with
    | some h => { st with pool := (releaseConnection cfg.usePool h st.pool).pool }
    | none => st
  | .purge b p => { st with pool := purgeFn cfg.usePool b p st.pool }

/-- The state of a freshly constructed `ConnectionManager`: empty pool. -/
def initState : PoolState := { pool := [], nextCid := 0 }

/-- Runs a sequence of public operations from the initial state. -/
def runOps (cfg : Config) (ops : List Op) : PoolState :=
  ops.foldl (runOp cfg) initState

/-- A concrete pooled configuration of capacity 1, used by witnesses. -/
def wCfg : Config :=
  { size := 1
    retryMax := 3
    usePool := true
    maxLifetime := 600
    bind := some (.str "u")
    passwd := some (.str "p") }

/-- A concrete acquisition environment (defaults, clock 0, rebinds
succeed, creation succeeds), used by witnesses. -/
def wEnv : AcquireEnv :=
  { bind := none
    passwd := none
    steps := fun _ => { now := 0, rebindOk := fun _ => true, createOk := true } }

/-- A concrete state whose single pooled handle is checked out, used by
witnesses. -/
def wActiveState : PoolState :=
  { pool := [{ freshHandle 0 with active := true }], nextCid := 1 }

/-! ### Helper lemmas -/

lemma removeFirstInactive_allActive :
    ∀ l : List Handle, (∀ h ∈ l, h.active = true) → removeFirstInactive l = l := by
  intro l
  induction l with
  | nil => intro _; rfl
  | cons h rest ih =>
    intro hall
    have hh : h.active = true := hall h (List.mem_cons_self h rest)
    have hr := ih (fun x hx => hall x (List.mem_cons_of_mem h hx))
    simp [removeFirstInactive, hh, hr]

lemma removeFirstInactive_split :
    ∀ pre : List Handle, ∀ y post, (∀ z ∈ pre, z.active = true) → y.active = false →
      removeFirstInactive (pre ++ y :: post) = pre ++ post := by
  intro pre
  induction pre with
  | nil => intro y post _ hy; simp [removeFirstInactive, hy]
  | cons a rest ih =>
    intro y post hall hy
    have ha : a.active = true := hall a (List.mem_cons_self a rest)
    have hr := ih y post (fun x hx => hall x (List.mem_cons_of_mem a hx)) hy
    simp [removeFirstInactive, ha, hr]

lemma evictOne_allActive (pool : List Handle) (hall : ∀ h ∈ pool, h.active = true) :
    evictOne pool = pool := by
  unfold evictOne
  rw [removeFirstInactive_allActive pool.reverse
    (fun x hx => hall x (List.mem_reverse.mp hx))]
  exact pool.reverse_reverse

lemma evictOne_split (xs : List Handle) (y : Handle) (zs : List Handle)
    (hy : y.active = false) (hzs : ∀ z ∈ zs, z.active = true) :
    evictOne (xs ++ y :: zs) = xs ++ zs := by
  unfold evictOne
  have hrev : (xs ++ y :: zs).reverse = zs.reverse ++ y :: xs.reverse := by
    simp
  rw [hrev, removeFirstInactive_split zs.reverse y xs.reverse
    (fun z hz => hzs z (List.mem_reverse.mp hz)) hy]
  simp

lemma scan1_allActive (b p : Option PyVal) (n m : Nat) :
    ∀ rev : List Handle, (∀ h ∈ rev, h.active = true) →
      scan1 b p n m rev = .miss rev [] := by
  intro rev
  induction rev with
  | nil => intro _; rfl
  | cons h rest ih =>
    intro hall
    have hh : h.active = true := hall h (List.mem_cons_self h rest)
    have hr := ih (fun x hx => hall x (List.mem_cons_of_mem h hx))
    simp [scan1, hh, hr]

lemma matchConn_allActive (b p : Option PyVal) (n m : Nat) (ro : Nat → Bool)
    (pool : List Handle) (hall : ∀ h ∈ pool, h.active = true) :
    matchConn b p n m ro pool = (pool, none) := by
  unfold matchConn
  rw [scan1_allActive b p n m pool.reverse
    (fun x hx => hall x (List.mem_reverse.mp hx))]
  simp [rebindLoop]

lemma getConnection_of_match_none (cfg : Config) (bind passwd : Option PyVal)
    (se : StepEnv) (st : PoolState) (mp : List Handle)
    (hup : cfg.usePool = true)
    (hmatch : matchConn (effCred cfg.bind bind) (effCred cfg.passwd passwd)
      se.now cfg.maxLifetime se.rebindOk st.pool = (mp, none))
    (hlen : cfg.size ≤ mp.length) :
    getConnection cfg bind passwd se st = ({ st with pool := mp }, .maxReached) := by
  simp [getConnection, hup, hmatch, hlen]

lemma acquireLoop_allActive (cfg : Config) (env : AcquireEnv) (st : PoolState)
    (hup : cfg.usePool = true) (hall : ∀ h ∈ st.pool, h.active = true)
    (hlen : cfg.size ≤ st.pool.length) :
    ∀ fuel tries, acquireLoop cfg env tries fuel st = (st, .exhausted) := by
  intro fuel
  induction fuel with
  | zero => intro _; rfl
  | succ f ih =>
    intro tries
    have hget := getConnection_of_match_none cfg env.bind env.passwd
      (env.steps tries) st st.pool hup
      (matchConn_allActive _ _ _ _ _ _ hall) hlen
    have hst : ({ st with pool := st.pool } : PoolState) = st := rfl
    rw [hst] at hget
    have hev : evictState st = st := by
      unfold evictState
      rw [evictOne_allActive st.pool hall]
    simp only [acquireLoop, hget, hev]
    exact ih (tries + 1)

lemma replaceCid_length (cid : Nat) (v : Handle) :
    ∀ l : List Handle, (replaceCid cid v l).length = l.length := by
  intro l
  induction l with
  | nil => rfl
  | cons a rest ih =>
    by_cases h : a.cid = cid <;> simp [replaceCid, h, ih]

lemma removeCid_sublist (cid : Nat) :
    ∀ l : List Handle, (removeCid cid l).Sublist l := by
  intro l
  induction l with
  | nil => exact List.Sublist.refl []
  | cons a rest ih =>
    by_cases h : a.cid = cid
    · simp [removeCid, h]
    · simp only [removeCid, h, if_false]
      exact List.Sublist.cons₂ a ih

lemma removeCid_length_le (cid : Nat) (l : List Handle) :
    (removeCid cid l).length ≤ l.length :=
  (removeCid_sublist cid l).length_le

lemma removeCid_cid_not_mem (h : Handle) :
    ∀ l : List Handle, (l.map Handle.cid).Nodup → h ∈ l →
      ∀ x ∈ removeCid h.cid l, x.cid ≠ h.cid := by
  intro l
  induction l with
  | nil => intro _ hm; cases hm
  | cons a rest ih =>
    intro hnd hm x hx
    rw [List.map_cons, List.nodup_cons] at hnd
    by_cases hc : a.cid = h.cid
    · simp only [removeCid, hc, if_true] at hx
      intro hxc
      apply hnd.1
      have hax : a.cid = x.cid := by rw [hc, hxc]
      rw [hax]
      exact List.mem_map_of_mem Handle.cid hx
    · simp only [removeCid, hc, if_false, List.mem_cons] at hx
      have hmr : h ∈ rest := by
        rcases List.mem_cons.mp hm with rfl | hr
        · exact absurd rfl hc
        · exact hr
      rcases hx with rfl | hx
      · exact fun hxc => hc hxc
      · exact ih hnd.2 hmr x hx

lemma replaceCid_mem_self (v : Handle) (h : Handle) :
    ∀ l : List Handle, h ∈ l → v ∈ replaceCid h.cid v l := by
  intro l
  induction l with
  | nil => intro hm; cases hm
  | cons a rest ih =>
    intro hm
    by_cases hc : a.cid = h.cid
    · simp [replaceCid, hc]
    · have hmr : h ∈ rest := by
        rcases List.mem_cons.mp hm with rfl | hr
        · exact absurd rfl hc
        · exact hr
      simp only [replaceCid, hc, if_false, List.mem_cons]
      exact Or.inr (ih hmr)

lemma purgeKeep_some_iff (b : PyVal) (pw : PyVal) (conn : Handle) :
    purgeKeep b (some pw) conn = true ↔
      (conn.who ≠ some b ∨ conn.cred = some (utf8Encode pw)) := by
  by_cases h : conn.who = some b <;> simp [purgeKeep, h]

lemma purgeKeep_none_iff (b : PyVal) (conn : Handle) :
    purgeKeep b none conn = true ↔ conn.who ≠ some b := by
  by_cases h : conn.who = some b <;> simp [purgeKeep, h]

lemma getLast?_cons_of_ne_nil {α : Type} (a : α) {l : List α} (h : l ≠ []) :
    (a :: l).getLast? = l.getLast? := by
  cases l with
  | nil => exact absurd rfl h
  | cons b t => exact List.getLast?_cons_cons

lemma getLast?_map {α β : Type} (f : α → β) :
    ∀ l : List α, (l.map f).getLast? = l.getLast?.map f := by
  intro l
  induction l with
  | nil => rfl
  | cons a t ih =>
    cases t with
    | nil => rfl
    | cons b u =>
      rw [List.map_cons, List.map_cons, List.getLast?_cons_cons,
        List.getLast?_cons_cons, ← List.map_cons]
      exact ih

lemma attemptLoop_invalid (s : ServerSpec) :
    ∀ (fuel tries : Nat) (exc : Option LDAPErr) (conn : Option Conn) (a : Nat),
      a ∈ (attemptLoop s tries fuel exc conn).2 →
      s.outcome a = .err .invalidCredentials →
      (attemptLoop s tries fuel exc conn).1 = .invalidCreds ∧
      (attemptLoop s tries fuel exc conn).2.getLast? = some a := by
  intro fuel
  induction fuel with
  | zero =>
    intro tries exc conn a ha _
    simp [attemptLoop] at ha
  | succ f ih =>
    intro tries exc conn a ha hinv
    cases ho : s.outcome tries with
    | ok =>
      have hred : attemptLoop s tries (f + 1) exc conn =
          (.connected ⟨s.name, tries⟩, [tries]) := by
        simp [attemptLoop, ho]
      rw [hred] at ha
      simp only [List.mem_singleton] at ha
      subst ha
      rw [hinv] at ho
      simp at ho
    | err e =>
      by_cases he : e = LDAPErr.invalidCredentials
      · subst he
        have hred : attemptLoop s tries (f + 1) exc conn = (.invalidCreds, [tries]) := by
          simp [attemptLoop, ho]
        rw [hred] at ha ⊢
        simp only [List.mem_singleton] at ha
        subst ha
        exact ⟨rfl, rfl⟩
      · have hred : attemptLoop s tries (f + 1) exc conn =
            ((attemptLoop s (tries + 1) f (some e) (some ⟨s.name, tries⟩)).1,
              tries :: (attemptLoop s (tries + 1) f (some e) (some ⟨s.name, tries⟩)).2) := by
          simp [attemptLoop, ho, he]
        rw [hred] at ha ⊢
        simp only [List.mem_cons] at ha
        rcases ha with rfl | ha2
        · rw [hinv] at ho
          injection ho with h
          exact absurd h.symm he
        · have hrec := ih (tries + 1) (some e) (some ⟨s.name, tries⟩) a ha2 hinv
          refine ⟨hrec.1, ?_⟩
          have hne : (attemptLoop s (tries + 1) f (some e) (some ⟨s.name, tries⟩)).2 ≠ [] := by
            intro hnil
            rw [hnil] at hrec
            simpa using hrec.2
          rw [getLast?_cons_of_ne_nil tries hne]
          exact hrec.2

lemma createLoop_invalid (retryMax : Nat) :
    ∀ (servers : List ServerSpec) (last : Option LDAPErr × Option Conn) (i a : Nat),
      outcomeAt servers i a = some (.err .invalidCredentials) →
      (i, a) ∈ (createLoop retryMax last servers).2 →
      (createLoop retryMax last servers).1 = .raised .invalidCredentials ∧
      (createLoop retryMax last servers).2.getLast? = some (i, a) := by
  intro servers
  induction servers with
  | nil =>
    intro last i a _ hm
    rcases last with ⟨exc, conn⟩
    cases exc with
    | none => simp [createLoop] at hm
    | some e =>
      by_cases ht : e.isTransient = true <;> simp [createLoop, ht] at hm
  | cons s rest ih =>
    intro last i a hout hm
    cases hr : (attemptLoop s 0 retryMax none none).1 with
    | connected c =>
      simp only [createLoop, hr, List.mem_map] at hm
      rcases hm with ⟨x, hx, hxe⟩
      have hi : i = 0 := by
        have := congrArg Prod.fst hxe
        simpa using this.symm
      have hax : x = a := by
        have := congrArg Prod.snd hxe
        simpa using this
      subst hi
      subst hax
      have hso : s.outcome x = .err .invalidCredentials := by
        simpa [outcomeAt] using hout
      have := (attemptLoop_invalid s retryMax 0 none none x hx hso).1
      rw [hr] at this
      cases this
    | invalidCreds =>
      constructor
      · simp only [createLoop, hr]
      · simp only [createLoop, hr, getLast?_map]
        have hi : i = 0 ∧ s.outcome a = .err .invalidCredentials := by
          simp only [createLoop, hr, List.mem_map] at hm
          rcases hm with ⟨x, hx, hxe⟩
          have h1 : i = 0 := by
            have := congrArg Prod.fst hxe
            simpa using this.symm
          have h2 : x = a := by
            have := congrArg Prod.snd hxe
            simpa using this
          subst h2
          exact ⟨h1, by simpa [h1, outcomeAt] using hout⟩
        have hx2 : a ∈ (attemptLoop s 0 retryMax none none).2 := by
          simp only [createLoop, hr, List.mem_map] at hm
          rcases hm with ⟨x, hx, hxe⟩
          have h2 : x = a := by
            have := congrArg Prod.snd hxe
            simpa using this
          rw [← h2]
          exact hx
        rw [(attemptLoop_invalid s retryMax 0 none none a hx2 hi.2).2]
        rw [hi.1]
        rfl
    | exhausted exc conn =>
      simp only [createLoop, hr, List.mem_append, List.mem_map] at hm
      rcases hm with hm0 | hm1
      · rcases hm0 with ⟨x, hx, hxe⟩
        have hi : i = 0 := by
          have := congrArg Prod.fst hxe
          simpa using this.symm
        have hax : x = a := by
          have := congrArg Prod.snd hxe
          simpa using this
        subst hi
        subst hax
        have hso : s.outcome x = .err .invalidCredentials := by
          simpa [outcomeAt] using hout
        have := (attemptLoop_invalid s retryMax 0 none none x hx hso).1
        rw [hr] at this
        cases this
      · rcases hm1 with ⟨⟨j, b⟩, hjb, hje⟩
        have hi : i = j + 1 := by
          have := congrArg Prod.fst hje
          simpa using this.symm
        have hab : b = a := by
          have := congrArg Prod.snd hje
          simpa using this
        subst hi
        subst hab
        have hout2 : outcomeAt rest j b = some (.err .invalidCredentials) := by
          simpa [outcomeAt] using hout
        have hrec := ih (exc, conn) j b hout2 hjb
        constructor
        · simp only [createLoop, hr]
          exact hrec.1
        · simp only [createLoop, hr]
          have hne : ((createLoop retryMax (exc, conn) rest).2.map
              (fun p => (p.1 + 1, p.2))) ≠ [] := by
            intro hnil
            rcases List.map_eq_nil_iff.mp hnil with h0
            rw [h0] at hrec
            cases hrec.2
          rw [List.getLast?_append_of_ne_nil _ hne, getLast?_map]
          rw [hrec.2]
          rfl

lemma attemptLoop_exhaust (s : ServerSpec) :
    ∀ (fuel tries : Nat) (exc : Option LDAPErr) (conn : Option Conn) (eL : LDAPErr),
      0 < fuel →
      (∀ t, tries ≤ t → t < tries + fuel →
        ∃ e, s.outcome t = .err e ∧ e ≠ .invalidCredentials) →
      s.outcome (tries + fuel - 1) = .err eL →
      (attemptLoop s tries fuel exc conn).1 =
        .exhausted (some eL) (some ⟨s.name, tries + fuel - 1⟩) := by
  intro fuel
  induction fuel with
  | zero => intro tries exc conn eL h0; cases h0
  | succ f ih =>
    intro tries exc conn eL _ hall hlast
    rcases hall tries (Nat.le_refl tries) (by omega) with ⟨e, he, hne⟩
    have hred : attemptLoop s tries (f + 1) exc conn =
        ((attemptLoop s (tries + 1) f (some e) (some ⟨s.name, tries⟩)).1,
          tries :: (attemptLoop s (tries + 1) f (some e) (some ⟨s.name, tries⟩)).2) := by
      simp [attemptLoop, he, hne]
    rw [hred]
    cases f with
    | zero =>
      have ht : tries + (0 + 1) - 1 = tries := by omega
      rw [ht] at hlast
      rw [he] at hlast
      injection hlast with heq
      subst heq
      have : tries + (0 + 1) - 1 = tries := by omega
      simp [attemptLoop, this]
    | succ f2 =>
      have hall2 : ∀ t, tries + 1 ≤ t → t < (tries + 1) + (f2 + 1) →
          ∃ e2, s.outcome t = .err e2 ∧ e2 ≠ .invalidCredentials := by
        intro t h1 h2
        exact hall t (by omega) (by omega)
      have hlast2 : s.outcome ((tries + 1) + (f2 + 1) - 1) = .err eL := by
        have : (tries + 1) + (f2 + 1) - 1 = tries + (f2 + 1 + 1) - 1 := by omega
        rw [this]
        exact hlast
      have := ih (tries + 1) (some e) (some ⟨s.name, tries⟩) eL (by omega) hall2 hlast2
      rw [show (tries + 1) + (f2 + 1) - 1 = tries + (f2 + 1 + 1) - 1 from by omega] at this
      exact this

lemma createLoop_allfail (retryMax : Nat) (hrm : 0 < retryMax) :
    ∀ (ss : List ServerSpec) (sLast : ServerSpec)
      (last : Option LDAPErr × Option Conn) (eL : LDAPErr),
      (∀ s ∈ ss ++ [sLast], ∀ t, t < retryMax →
        ∃ e, s.outcome t = .err e ∧ e ≠ .invalidCredentials) →
      sLast.outcome (retryMax - 1) = .err eL →
      (createLoop retryMax last (ss ++ [sLast])).1 =
        (if eL.isTransient then .raised eL
          else .backend (some eL) (some ⟨sLast.name, retryMax - 1⟩)) := by
  intro ss
  induction ss with
  | nil =>
    intro sLast last eL hall hlast
    have hinner := attemptLoop_exhaust sLast retryMax 0 none none eL hrm
      (fun t _ ht2 => hall sLast (by simp) t (by omega)) (by simpa using hlast)
    have hred : createLoop retryMax last ([] ++ [sLast]) =
        ((createLoop retryMax (some eL, some ⟨sLast.name, 0 + retryMax - 1⟩) []).1,
          ((attemptLoop sLast 0 retryMax none none).2.map (fun a => ((0 : Nat), a))) ++
            (createLoop retryMax (some eL, some ⟨sLast.name, 0 + retryMax - 1⟩) []).2.map
              (fun p => (p.1 + 1, p.2))) := by
      simp only [List.nil_append, createLoop, hinner]
    rw [hred]
    by_cases ht : eL.isTransient = true <;> simp [createLoop, ht]
  | cons s ss2 ih =>
    intro sLast last eL hall hlast
    have hexh : ∃ e2, (attemptLoop s 0 retryMax none none).1 =
        .exhausted (some e2) (some ⟨s.name, 0 + retryMax - 1⟩) := by
      rcases hall s (by simp) (0 + retryMax - 1) (by omega) with ⟨e2, he2, _⟩
      exact ⟨e2, attemptLoop_exhaust s retryMax 0 none none e2 hrm
        (fun t _ ht2 => hall s (by simp) t (by omega)) he2⟩
    rcases hexh with ⟨e2, he2⟩
    have hred : (createLoop retryMax last ((s :: ss2) ++ [sLast])).1 =
        (createLoop retryMax (some e2, some ⟨s.name, 0 + retryMax - 1⟩) (ss2 ++ [sLast])).1 := by
      simp only [List.cons_append, createLoop, he2]
      rfl
    rw [hred]
    exact ih sLast (some e2, some ⟨s.name, 0 + retryMax - 1⟩) eL
      (fun x hx => hall x (by rw [List.cons_append]; exact List.mem_cons_of_mem s hx)) hlast

lemma createLoop_rm0 :
    ∀ servers : List ServerSpec, (createLoop 0 (none, none) servers).1 = .backend none none := by
  intro servers
  induction servers with
  | nil => rfl
  | cons s rest ih => simpa [createLoop, attemptLoop] using ih

/-! ### Claim C3 -/

/-- C3: during connection creation, if an attempt against endpoint `i`
reports `INVALID_CREDENTIALS` (and that attempt was executed), the whole
creation raises `INVALID_CREDENTIALS` and that attempt is the *last* one
executed: no retry on the same endpoint and no failover to any later
endpoint ever runs after it. -/
theorem c3_invalid_credentials_aborts :
    ∀ (retryMax : Nat) (servers : List ServerSpec) (i a : Nat),
      outcomeAt servers i a = some (.err .invalidCredentials) →
      (i, a) ∈ (createConnector retryMax servers).2 →
      (createConnector retryMax servers).1 = .raised .invalidCredentials ∧
      (createConnector retryMax servers).2.getLast? = some (i, a) := by
  intro rm servers i a h1 h2
  exact createLoop_invalid rm servers (none, none) i a h1 h2

/-- C3 witness: a first endpoint that reports a transient failure and
then rejects the credentials, followed by a healthy second endpoint; the
invalid-credentials attempt `(0, 1)` is executed, the creation raises,
and `(0, 1)` is the last executed attempt. -/
theorem c3_invalid_credentials_aborts_witness :
    (createConnector 3
        [⟨"ldap1", fun t => if t = 0 then .err .serverDown else .err .invalidCredentials⟩,
          ⟨"ldap2", fun _ => .ok⟩]).1 = .raised .invalidCredentials ∧
    (createConnector 3
        [⟨"ldap1", fun t => if t = 0 then .err .serverDown else .err .invalidCredentials⟩,
          ⟨"ldap2", fun _ => .ok⟩]).2.getLast? = some (0, 1) :=
  c3_invalid_credentials_aborts 3
    [⟨"ldap1", fun t => if t = 0 then .err .serverDown else .err .invalidCredentials⟩,
      ⟨"ldap2", fun _ => .ok⟩] 0 1 (by decide) (by decide)

/-! ### Claim C5 -/

/-- C5: if every endpoint is exhausted without a successful bind (every
attempt failing with a non-credential `LDAPError`), the engine looks at
the last observed failure — the last endpoint's last attempt: when it
belongs to the transient class (`SERVER_DOWN`, `TIMEOUT`,
`NO_SUCH_OBJECT`) it is re-raised unchanged, and otherwise it is wrapped
in a `BackendError` carrying the partially constructed connector of that
last attempt; with `retry_max = 0` no attempt is made and the
`BackendError` carries a null exception and a null connector. -/
theorem c5_exhausted_endpoints :
    (∀ (retryMax : Nat) (ss : List ServerSpec) (sLast : ServerSpec) (eL : LDAPErr),
      0 < retryMax →
      (∀ s ∈ ss ++ [sLast], ∀ t, t < retryMax →
        ∃ e, s.outcome t = .err e ∧ e ≠ .invalidCredentials) →
      sLast.outcome (retryMax - 1) = .err eL →
      (createConnector retryMax (ss ++ [sLast])).1 =
        (if eL.isTransient then .raised eL
          else .backend (some eL) (some ⟨sLast.name, retryMax - 1⟩))) ∧
    (∀ (s : ServerSpec) (rest : List ServerSpec),
      (createConnector 0 (s :: rest)).1 = .backend none none) := by
  constructor
  · intro rm ss sLast eL hrm hall hlast
    exact createLoop_allfail rm hrm ss sLast (none, none) eL hall hlast
  · intro s rest
    exact createLoop_rm0 (s :: rest)

/-- C5 witness: one endpoint failing every attempt with `TIMEOUT`
(transient class) has the timeout re-raised as-is. -/
theorem c5_exhausted_endpoints_witness :
    (createConnector 1 ([] ++ [⟨"a", fun _ => AttemptResult.err .timeout⟩])).1 =
      (if LDAPErr.timeout.isTransient then CreateOut.raised .timeout
        else CreateOut.backend (some .timeout) (some ⟨"a", 1 - 1⟩)) :=
  c5_exhausted_endpoints.1 1 [] ⟨"a", fun _ => AttemptResult.err .timeout⟩ .timeout
    (by decide)
    (by
      intro s hs t ht
      have hseq : s = ⟨"a", fun _ => AttemptResult.err .timeout⟩ := by
        simpa using hs
      subst hseq
      exact ⟨.timeout, rfl, by decide⟩)
    rfl

lemma scan1_revPool_length (b p : Option PyVal) (n m : Nat) :
    ∀ rev : List Handle, ((scan1 b p n m rev).revPool).length ≤ rev.length := by
  intro rev
  induction rev with
  | nil => simp [scan1, Scan1Out.revPool]
  | cons h rest ih =>
    by_cases ha : h.active = true
    · cases hr : scan1 b p n m rest with
      | found sel rev2 =>
        rw [hr] at ih
        simp only [scan1, ha, if_true, hr, Scan1Out.revPool, List.length_cons] at ih ⊢
        omega
      | miss rev2 inact =>
        rw [hr] at ih
        simp only [scan1, ha, if_true, hr, Scan1Out.revPool, List.length_cons] at ih ⊢
        omega
    · by_cases hl : m < getLifetime n h
      · have hred : scan1 b p n m (h :: rest) = scan1 b p n m rest := by
          simp [scan1, ha, hl]
        rw [hred]
        exact Nat.le_trans ih (by simp)
      · by_cases hw : h.who = b ∧ h.cred = p
        · have hred : scan1 b p n m (h :: rest) =
              .found { h with active := true } ({ h with active := true } :: rest) := by
            simp [scan1, ha, hl, hw]
          rw [hred]
          simp [Scan1Out.revPool]
        · cases hr : scan1 b p n m rest with
          | found sel rev2 =>
            rw [hr] at ih
            have hred : scan1 b p n m (h :: rest) = .found sel (h :: rev2) := by
              simp [scan1, ha, hl, hw, hr]
            rw [hred]
            simp only [Scan1Out.revPool, List.length_cons] at ih ⊢
            omega
          | miss rev2 inact =>
            rw [hr] at ih
            have hred : scan1 b p n m (h :: rest) = .miss (h :: rev2) (h :: inact) := by
              simp [scan1, ha, hl, hw, hr]
            rw [hred]
            simp only [Scan1Out.revPool, List.length_cons] at ih ⊢
            omega

lemma rebindLoop_fst_length (b p : Option PyVal) (n : Nat) (ro : Nat → Bool) :
    ∀ (cs rev : List Handle), ((rebindLoop b p n ro rev cs).1).length ≤ rev.length := by
  intro cs
  induction cs with
  | nil => intro rev; simp [rebindLoop]
  | cons c cs2 ih =>
    intro rev
    by_cases hro : ro c.cid = true
    · simp [rebindLoop, hro, replaceCid_length]
    · have : rebindLoop b p n ro rev (c :: cs2) =
          rebindLoop b p n ro (removeCid c.cid rev) cs2 := by
        simp [rebindLoop, hro]
      rw [this]
      exact Nat.le_trans (ih (removeCid c.cid rev)) (removeCid_length_le c.cid rev)

lemma matchConn_fst_length (b p : Option PyVal) (n m : Nat) (ro : Nat → Bool)
    (pool : List Handle) : ((matchConn b p n m ro pool).1).length ≤ pool.length := by
  have hs := scan1_revPool_length b p n m pool.reverse
  cases hr : scan1 b p n m pool.reverse with
  | found sel rev2 =>
    rw [hr] at hs
    simp only [Scan1Out.revPool] at hs
    have hm : matchConn b p n m ro pool = (rev2.reverse, some sel) := by
      unfold matchConn
      rw [hr]
    rw [hm]
    simpa using hs
  | miss rev2 inact =>
    rw [hr] at hs
    simp only [Scan1Out.revPool] at hs
    have hm : matchConn b p n m ro pool =
        ((rebindLoop b p n ro rev2 inact).1.reverse,
          (rebindLoop b p n ro rev2 inact).2) := by
      unfold matchConn
      rw [hr]
    rw [hm]
    have hrb := rebindLoop_fst_length b p n ro inact rev2
    calc ((rebindLoop b p n ro rev2 inact).1.reverse,
          (rebindLoop b p n ro rev2 inact).2).1.length
        = (rebindLoop b p n ro rev2 inact).1.length := by simp
      _ ≤ rev2.length := hrb
      _ ≤ pool.reverse.length := hs
      _ = pool.length := by simp

lemma removeFirstInactive_length_le :
    ∀ l : List Handle, (removeFirstInactive l).length ≤ l.length := by
  intro l
  induction l with
  | nil => simp [removeFirstInactive]
  | cons h rest ih =>
    by_cases ha : h.active = true
    · simp only [removeFirstInactive, ha, if_true, List.length_cons]
      omega
    · simp only [removeFirstInactive, ha, Bool.false_eq_true, if_false, List.length_cons]
      omega

lemma evictOne_length_le (pool : List Handle) : (evictOne pool).length ≤ pool.length := by
  unfold evictOne
  have := removeFirstInactive_length_le pool.reverse
  simpa using this

lemma getConnection_pool_le (cfg : Config) (b p : Option PyVal) (se : StepEnv)
    (st : PoolState) (hlen : st.pool.length ≤ cfg.size) :
    ((getConnection cfg b p se st).1).pool.length ≤ cfg.size := by
  by_cases hup : cfg.usePool = true
  · have hml := matchConn_fst_length (effCred cfg.bind b) (effCred cfg.passwd p)
      se.now cfg.maxLifetime se.rebindOk st.pool
    rcases hmc : matchConn (effCred cfg.bind b) (effCred cfg.passwd p) se.now
      cfg.maxLifetime se.rebindOk st.pool with ⟨mp, msel⟩
    rw [hmc] at hml
    cases msel with
    | some c =>
      simp only [getConnection, hup, if_true, hmc]
      simpa using Nat.le_trans hml hlen
    | none =>
      by_cases hsz : cfg.size ≤ mp.length
      · simp only [getConnection, hup, if_true, hmc, if_pos hsz]
        simpa using Nat.le_trans hml hlen
      · by_cases hco : se.createOk = true
        · simp only [getConnection, hup, if_true, hmc, if_neg hsz, hco]
          simp
          omega
        · simp only [getConnection, hup, if_true, hmc, if_neg hsz, hco]
          simpa using Nat.le_trans hml hlen
  · have hnp : cfg.usePool = false := by
      revert hup
      cases cfg.usePool <;> simp
    by_cases hco : se.createOk = true <;>
      simp [getConnection, hnp, hco, hlen]

lemma acquireLoop_pool_le (cfg : Config) (env : AcquireEnv) :
    ∀ (fuel tries : Nat) (st : PoolState), st.pool.length ≤ cfg.size →
      ((acquireLoop cfg env tries fuel st).1).pool.length ≤ cfg.size := by
  intro fuel
  induction fuel with
  | zero => intro tries st hlen; exact hlen
  | succ f ih =>
    intro tries st hlen
    rcases hg : getConnection cfg env.bind env.passwd (env.steps tries) st with ⟨st2, out⟩
    have h2 : st2.pool.length ≤ cfg.size := by
      have := getConnection_pool_le cfg env.bind env.passwd (env.steps tries) st hlen
      rw [hg] at this
      exact this
    cases out with
    | ok h => simp only [acquireLoop, hg]; exact h2
    | createFailed => simp only [acquireLoop, hg]; exact h2
    | maxReached =>
      simp only [acquireLoop, hg]
      refine ih (tries + 1) (evictState st2) ?_
      unfold evictState
      exact Nat.le_trans (evictOne_length_le st2.pool) h2

lemma runOp_pool_le (cfg : Config) (st : PoolState) (op : Op)
    (hlen : st.pool.length ≤ cfg.size) :
    ((runOp cfg st op).pool).length ≤ cfg.size := by
  cases op with
  | acq env => exact acquireLoop_pool_le cfg env cfg.retryMax 0 st hlen
  | release cid =>
    cases hf : st.pool.find? (fun h => h.cid = cid) with
    | none => simpa only [runOp, hf] using hlen
    | some h =>
      simp only [runOp, hf]
      by_cases hup : cfg.usePool = true
      · by_cases hc : h.connected = true
        · simp only [releaseConnection, hup, if_true, hc]
          simpa [replaceCid_length] using hlen
        · simp only [releaseConnection, hup, if_true, hc, Bool.false_eq_true, if_false]
          exact Nat.le_trans (removeCid_length_le h.cid st.pool) hlen
      · have hnp : cfg.usePool = false := by
          revert hup
          cases cfg.usePool <;> simp
        simp only [releaseConnection, hnp, Bool.false_eq_true, if_false]
        simpa using hlen
  | purge b p =>
    simp only [runOp]
    by_cases hup : cfg.usePool = true
    · simpa [purgeFn, hup] using hlen
    · have hnp : cfg.usePool = false := by
        revert hup
        cases cfg.usePool <;> simp
      simp only [purgeFn, hnp, Bool.false_eq_true, if_false]
      exact Nat.le_trans (List.Sublist.length_le (List.filter_sublist st.pool)) hlen

lemma runOps_foldl_pool_le (cfg : Config) :
    ∀ (ops : List Op) (st : PoolState), st.pool.length ≤ cfg.size →
      ((ops.foldl (runOp cfg) st).pool).length ≤ cfg.size := by
  intro ops
  induction ops with
  | nil => intro st h; exact h
  | cons op rest ih =>
    intro st h
    exact ih (runOp cfg st op) (runOp_pool_le cfg st op h)

lemma getConnection_pool_of_nopool (cfg : Config) (b p : Option PyVal)
    (se : StepEnv) (st : PoolState) (hnp : cfg.usePool = false) :
    ((getConnection cfg b p se st).1).pool = st.pool := by
  by_cases hco : se.createOk = true <;> simp [getConnection, hnp, hco]

lemma acquireLoop_pool_nil (cfg : Config) (env : AcquireEnv)
    (hnp : cfg.usePool = false) :
    ∀ (fuel tries : Nat) (st : PoolState), st.pool = [] →
      ((acquireLoop cfg env tries fuel st).1).pool = [] := by
  intro fuel
  induction fuel with
  | zero => intro tries st h; exact h
  | succ f ih =>
    intro tries st h
    rcases hg : getConnection cfg env.bind env.passwd (env.steps tries) st with ⟨st2, out⟩
    have h2 : st2.pool = [] := by
      have := getConnection_pool_of_nopool cfg env.bind env.passwd (env.steps tries) st hnp
      rw [hg] at this
      rw [this]
      exact h
    cases out with
    | ok hh => simp only [acquireLoop, hg]; exact h2
    | createFailed => simp only [acquireLoop, hg]; exact h2
    | maxReached =>
      simp only [acquireLoop, hg]
      refine ih (tries + 1) (evictState st2) ?_
      unfold evictState
      rw [h2]
      rfl

lemma runOp_pool_nil (cfg : Config) (st : PoolState) (op : Op)
    (hnp : cfg.usePool = false) (h : st.pool = []) : (runOp cfg st op).pool = [] := by
  cases op with
  | acq env => exact acquireLoop_pool_nil cfg env hnp cfg.retryMax 0 st h
  | release cid =>
    have hf : st.pool.find? (fun x => x.cid = cid) = none := by
      rw [h]
      rfl
    simp only [runOp, hf]
    exact h
  | purge b p =>
    simp only [runOp, purgeFn, hnp, Bool.false_eq_true, if_false]
    rw [h]
    rfl

lemma runOps_pool_nil (cfg : Config) (hnp : cfg.usePool = false) :
    ∀ (ops : List Op) (st : PoolState), st.pool = [] →
      ((ops.foldl (runOp cfg) st).pool) = [] := by
  intro ops
  induction ops with
  | nil => intro st h; exact h
  | cons op rest ih =>
    intro st h
    exact ih (runOp cfg st op) (runOp_pool_nil cfg st op hnp h)

lemma scan1_cons_active {h : Handle} (b p : Option PyVal) (n m : Nat)
    (rest : List Handle) (ha : h.active = true) :
    scan1 b p n m (h :: rest) =
      (match scan1 b p n m rest with
        | .found sel rev => .found sel (h :: rev)
        | .miss rev inact => .miss (h :: rev) inact) := by
  simp [scan1, ha]

lemma scan1_cons_expired {h : Handle} (b p : Option PyVal) (n m : Nat)
    (rest : List Handle) (ha : h.active = false) (hl : m < getLifetime n h) :
    scan1 b p n m (h :: rest) = scan1 b p n m rest := by
  simp [scan1, ha, hl]

lemma scan1_cons_exact {h : Handle} (b p : Option PyVal) (n m : Nat)
    (rest : List Handle) (ha : h.active = false) (hl : ¬m < getLifetime n h)
    (hw : h.who = b ∧ h.cred = p) :
    scan1 b p n m (h :: rest) =
      .found { h with active := true } ({ h with active := true } :: rest) := by
  simp [scan1, ha, hl, hw]

lemma scan1_cons_cand {h : Handle} (b p : Option PyVal) (n m : Nat)
    (rest : List Handle) (ha : h.active = false) (hl : ¬m < getLifetime n h)
    (hw : ¬(h.who = b ∧ h.cred = p)) :
    scan1 b p n m (h :: rest) =
      (match scan1 b p n m rest with
        | .found sel rev => .found sel (h :: rev)
        | .miss rev inact => .miss (h :: rev) (h :: inact)) := by
  simp [scan1, ha, hl, hw]

lemma scan1_found_lifetime (b p : Option PyVal) (n m : Nat) :
    ∀ (rev : List Handle) (sel : Handle) (rev2 : List Handle),
      scan1 b p n m rev = .found sel rev2 → getLifetime n sel ≤ m := by
  intro rev
  induction rev with
  | nil => intro sel rev2 heq; simp [scan1] at heq
  | cons h rest ih =>
    intro sel rev2 heq
    by_cases ha : h.active = true
    · rw [scan1_cons_active b p n m rest ha] at heq
      cases hr : scan1 b p n m rest with
      | found sel2 r2 =>
        rw [hr] at heq
        injection heq with h1 _
        subst h1
        exact ih sel2 r2 hr
      | miss r2 i2 =>
        rw [hr] at heq
        exact Scan1Out.noConfusion heq
    · have ha2 : h.active = false := by
        revert ha
        cases h.active <;> simp
      by_cases hl : m < getLifetime n h
      · rw [scan1_cons_expired b p n m rest ha2 hl] at heq
        exact ih sel rev2 heq
      · by_cases hw : h.who = b ∧ h.cred = p
        · rw [scan1_cons_exact b p n m rest ha2 hl hw] at heq
          injection heq with h1 _
          subst h1
          have hgl : getLifetime n { h with active := true } = getLifetime n h := rfl
          rw [hgl]
          omega
        · rw [scan1_cons_cand b p n m rest ha2 hl hw] at heq
          cases hr : scan1 b p n m rest with
          | found sel2 r2 =>
            rw [hr] at heq
            injection heq with h1 _
            subst h1
            exact ih sel2 r2 hr
          | miss r2 i2 =>
            rw [hr] at heq
            exact Scan1Out.noConfusion heq

lemma scan1_miss_inact_lifetime (b p : Option PyVal) (n m : Nat) :
    ∀ (rev rev2 inact : List Handle),
      scan1 b p n m rev = .miss rev2 inact →
      ∀ c ∈ inact, getLifetime n c ≤ m := by
  intro rev
  induction rev with
  | nil =>
    intro rev2 inact heq c hc
    simp only [scan1] at heq
    injection heq with _ h2
    subst h2
    cases hc
  | cons h rest ih =>
    intro rev2 inact heq c hc
    by_cases ha : h.active = true
    · rw [scan1_cons_active b p n m rest ha] at heq
      cases hr : scan1 b p n m rest with
      | found sel2 r2 =>
        rw [hr] at heq
        exact Scan1Out.noConfusion heq
      | miss r2 i2 =>
        rw [hr] at heq
        injection heq with _ h2
        subst h2
        exact ih r2 i2 hr c hc
    · have ha2 : h.active = false := by
        revert ha
        cases h.active <;> simp
      by_cases hl : m < getLifetime n h
      · rw [scan1_cons_expired b p n m rest ha2 hl] at heq
        exact ih rev2 inact heq c hc
      · by_cases hw : h.who = b ∧ h.cred = p
        · rw [scan1_cons_exact b p n m rest ha2 hl hw] at heq
          exact Scan1Out.noConfusion heq
        · rw [scan1_cons_cand b p n m rest ha2 hl hw] at heq
          cases hr : scan1 b p n m rest with
          | found sel2 r2 =>
            rw [hr] at heq
            exact Scan1Out.noConfusion heq
          | miss r2 i2 =>
            rw [hr] at heq
            injection heq with _ h2
            subst h2
            rcases List.mem_cons.mp hc with rfl | hc2
            · omega
            · exact ih r2 i2 hr c hc2

lemma rebindLoop_sel_src (b p : Option PyVal) (n : Nat) (ro : Nat → Bool) :
    ∀ (cs rev rev2 : List Handle) (sel : Handle),
      rebindLoop b p n ro rev cs = (rev2, some sel) →
      ∃ c ∈ cs, sel = doBind b p n c := by
  intro cs
  induction cs with
  | nil =>
    intro rev rev2 sel heq
    simp [rebindLoop] at heq
  | cons c cs2 ih =>
    intro rev rev2 sel heq
    by_cases hro : ro c.cid = true
    · simp only [rebindLoop, hro, if_true] at heq
      injection heq with _ h2
      injection h2 with h3
      exact ⟨c, List.mem_cons_self c cs2, h3.symm⟩
    · simp only [rebindLoop, hro, Bool.false_eq_true, if_false] at heq
      rcases ih (removeCid c.cid rev) rev2 sel heq with ⟨c2, hc2, he⟩
      exact ⟨c2, List.mem_cons_of_mem c hc2, he⟩

lemma doBind_lifetime_le (b p : Option PyVal) (n m : Nat) (h : Handle)
    (hle : getLifetime n h ≤ m) : getLifetime n (doBind b p n h) ≤ m := by
  cases b with
  | none => exact hle
  | some v =>
    cases hct : h.connectionTime with
    | some t =>
      have : getLifetime n (doBind (some v) p n h) = getLifetime n h := by
        simp [doBind, getLifetime, hct]
      rw [this]
      exact hle
    | none =>
      have : getLifetime n (doBind (some v) p n h) = n - n := by
        simp [doBind, getLifetime, hct]
      rw [this]
      omega

lemma matchConn_sel_lifetime (b p : Option PyVal) (n m : Nat) (ro : Nat → Bool)
    (pool pool2 : List Handle) (sel : Handle)
    (heq : matchConn b p n m ro pool = (pool2, some sel)) :
    getLifetime n sel ≤ m := by
  cases hr : scan1 b p n m pool.reverse with
  | found sel2 r2 =>
    have hm : matchConn b p n m ro pool = (r2.reverse, some sel2) := by
      unfold matchConn
      rw [hr]
    rw [hm] at heq
    injection heq with _ h2
    injection h2 with h3
    rw [← h3]
    exact scan1_found_lifetime b p n m pool.reverse sel2 r2 hr
  | miss r2 i2 =>
    have hm : matchConn b p n m ro pool =
        ((rebindLoop b p n ro r2 i2).1.reverse, (rebindLoop b p n ro r2 i2).2) := by
      unfold matchConn
      rw [hr]
    rw [hm] at heq
    have h2 : (rebindLoop b p n ro r2 i2).2 = some sel := by
      have := congrArg Prod.snd heq
      simpa using this
    rcases hrl : rebindLoop b p n ro r2 i2 with ⟨rl1, rl2⟩
    rw [hrl] at h2
    simp only at h2
    subst h2
    rcases rebindLoop_sel_src b p n ro i2 r2 rl1 sel hrl with ⟨c, hc, hsel⟩
    rw [hsel]
    exact doBind_lifetime_le b p n m c
      (scan1_miss_inact_lifetime b p n m pool.reverse r2 i2 hr c hc)

lemma replaceCid_mem_src (cid : Nat) (v : Handle) :
    ∀ l : List Handle, ∀ x ∈ replaceCid cid v l,
      x ∈ l ∨ (x = v ∧ ∃ y ∈ l, y.cid = cid) := by
  intro l
  induction l with
  | nil => intro x hx; cases hx
  | cons a rest ih =>
    intro x hx
    by_cases hc : a.cid = cid
    · simp only [replaceCid, hc, if_true, List.mem_cons] at hx
      rcases hx with rfl | hx2
      · exact Or.inr ⟨rfl, a, List.mem_cons_self a rest, hc⟩
      · exact Or.inl (List.mem_cons_of_mem a hx2)
    · simp only [replaceCid, hc, if_false, List.mem_cons] at hx
      rcases hx with rfl | hx2
      · exact Or.inl (List.mem_cons_self x rest)
      · rcases ih x hx2 with hl | ⟨he, y, hy, hyc⟩
        · exact Or.inl (List.mem_cons_of_mem a hl)
        · exact Or.inr ⟨he, y, List.mem_cons_of_mem a hy, hyc⟩

lemma rebindLoop_cid_src (b p : Option PyVal) (n : Nat) (ro : Nat → Bool) :
    ∀ (cs rev : List Handle), ∀ x ∈ (rebindLoop b p n ro rev cs).1,
      ∃ y ∈ rev, y.cid = x.cid := by
  intro cs
  induction cs with
  | nil =>
    intro rev x hx
    exact ⟨x, hx, rfl⟩
  | cons c cs2 ih =>
    intro rev x hx
    by_cases hro : ro c.cid = true
    · simp only [rebindLoop, hro, if_true] at hx
      rcases replaceCid_mem_src c.cid (doBind b p n c) rev x hx with hl | ⟨he, y, hy, hyc⟩
      · exact ⟨x, hl, rfl⟩
      · refine ⟨y, hy, ?_⟩
        rw [hyc, he]
        cases b <;> rfl
    · simp only [rebindLoop, hro, Bool.false_eq_true, if_false] at hx
      rcases ih (removeCid c.cid rev) x hx with ⟨y, hy, hyc⟩
      exact ⟨y, (removeCid_sublist c.cid rev).mem hy, hyc⟩

lemma scan1_miss_cid_src (b p : Option PyVal) (n m : Nat) :
    ∀ (rev rev2 inact : List Handle), scan1 b p n m rev = .miss rev2 inact →
      ∀ x ∈ rev2, ∃ y ∈ rev, y.cid = x.cid ∧
        (y.active = true ∨ getLifetime n y ≤ m) := by
  intro rev
  induction rev with
  | nil =>
    intro rev2 inact heq x hx
    simp only [scan1] at heq
    injection heq with h1 _
    subst h1
    cases hx
  | cons h rest ih =>
    intro rev2 inact heq x hx
    by_cases ha : h.active = true
    · rw [scan1_cons_active b p n m rest ha] at heq
      cases hr : scan1 b p n m rest with
      | found sel2 r2 =>
        rw [hr] at heq
        exact Scan1Out.noConfusion heq
      | miss r2 i2 =>
        rw [hr] at heq
        injection heq with h1 _
        subst h1
        rcases List.mem_cons.mp hx with rfl | hx2
        · exact ⟨x, List.mem_cons_self x rest, rfl, Or.inl ha⟩
        · rcases ih r2 i2 hr x hx2 with ⟨y, hy, hyc, hyk⟩
          exact ⟨y, List.mem_cons_of_mem h hy, hyc, hyk⟩
    · have ha2 : h.active = false := by
        revert ha
        cases h.active <;> simp
      by_cases hl : m < getLifetime n h
      · rw [scan1_cons_expired b p n m rest ha2 hl] at heq
        rcases ih rev2 inact heq x hx with ⟨y, hy, hyc, hyk⟩
        exact ⟨y, List.mem_cons_of_mem h hy, hyc, hyk⟩
      · by_cases hw : h.who = b ∧ h.cred = p
        · rw [scan1_cons_exact b p n m rest ha2 hl hw] at heq
          exact Scan1Out.noConfusion heq
        · rw [scan1_cons_cand b p n m rest ha2 hl hw] at heq
          cases hr : scan1 b p n m rest with
          | found sel2 r2 =>
            rw [hr] at heq
            exact Scan1Out.noConfusion heq
          | miss r2 i2 =>
            rw [hr] at heq
            injection heq with h1 _
            subst h1
            rcases List.mem_cons.mp hx with rfl | hx2
            · exact ⟨x, List.mem_cons_self x rest, rfl, Or.inr (by omega)⟩
            · rcases ih r2 i2 hr x hx2 with ⟨y, hy, hyc, hyk⟩
              exact ⟨y, List.mem_cons_of_mem h hy, hyc, hyk⟩

lemma matchConn_miss_expired_removed (b p : Option PyVal) (n m : Nat)
    (ro : Nat → Bool) (pool rev2 inact : List Handle) (h : Handle)
    (hscan : scan1 b p n m pool.reverse = .miss rev2 inact)
    (hnd : (pool.map Handle.cid).Nodup) (hm : h ∈ pool)
    (hidle : h.active = false) (hexp : m < getLifetime n h) :
    ∀ x ∈ (matchConn b p n m ro pool).1, x.cid ≠ h.cid := by
  intro x hx hcontra
  have hmc : matchConn b p n m ro pool =
      ((rebindLoop b p n ro rev2 inact).1.reverse,
        (rebindLoop b p n ro rev2 inact).2) := by
    unfold matchConn
    rw [hscan]
  rw [hmc] at hx
  simp only [List.mem_reverse] at hx
  rcases rebindLoop_cid_src b p n ro inact rev2 x hx with ⟨y2, hy2, hy2c⟩
  rcases scan1_miss_cid_src b p n m pool.reverse rev2 inact hscan y2 hy2 with
    ⟨y, hy, hyc, hyk⟩
  have hyp : y ∈ pool := List.mem_reverse.mp hy
  have hyeq : y = h := by
    refine List.inj_on_of_nodup_map hnd hyp hm ?_
    rw [hyc, hy2c, hcontra]
  rw [hyeq] at hyk
  rcases hyk with hk | hk
  · rw [hidle] at hk
    cases hk
  · omega

/-! ### Claim C6 -/

/-- C6: a handle whose `get_lifetime()` exceeds `max_lifetime` is never
returned by `_match` (every returned handle satisfies the lifetime bound
at scan time); when the scan reaches an idle handle past the lifetime it
unbinds it best-effort, removes it and continues scanning with the
remaining handles (neither the surviving pool nor the candidate list
keeps it); when the scan runs to completion (no exact match cut it
short), no idle expired member survives into the resulting pool; and
`get_lifetime` is the current time minus the first-bind timestamp, or
zero when the handle was never bound. -/
theorem c6_lazy_lifetime_expiry :
    (∀ (b p : Option PyVal) (n m : Nat) (ro : Nat → Bool)
        (pool pool2 : List Handle) (sel : Handle),
      matchConn b p n m ro pool = (pool2, some sel) → getLifetime n sel ≤ m) ∧
    (∀ (b p : Option PyVal) (n m : Nat) (rest : List Handle) (h : Handle),
      h.active = false → m < getLifetime n h →
      scan1 b p n m (h :: rest) = scan1 b p n m rest) ∧
    (∀ (b p : Option PyVal) (n m : Nat) (ro : Nat → Bool)
        (pool rev2 inact : List Handle) (h : Handle),
      scan1 b p n m pool.reverse = .miss rev2 inact →
      (pool.map Handle.cid).Nodup → h ∈ pool →
      h.active = false → m < getLifetime n h →
      ∀ x ∈ (matchConn b p n m ro pool).1, x.cid ≠ h.cid) ∧
    (∀ (n : Nat) (h : Handle), h.connectionTime = none → getLifetime n h = 0) ∧
    (∀ (n t : Nat) (h : Handle), h.connectionTime = some t →
      getLifetime n h = n - t) := by
  refine ⟨?_, ?_, ?_, ?_, ?_⟩
  · intro b p n m ro pool pool2 sel heq
    exact matchConn_sel_lifetime b p n m ro pool pool2 sel heq
  · intro b p n m rest h hidle hexp
    exact scan1_cons_expired b p n m rest hidle hexp
  · intro b p n m ro pool rev2 inact h hscan hnd hm hidle hexp
    exact matchConn_miss_expired_removed b p n m ro pool rev2 inact h hscan hnd hm
      hidle hexp
  · intro n h hct
    simp [getLifetime, hct]
  · intro n t h hct
    simp [getLifetime, hct]

/-- C6 witness: an idle handle bound at time 0, queried at time 700 with
`max_lifetime` 600, is dropped by the scan step. -/
theorem c6_lazy_lifetime_expiry_witness :
    scan1 (some (.str "u")) (some (.str "p")) 700 600
      ({ freshHandle 5 with connectionTime := some 0 } :: []) =
      scan1 (some (.str "u")) (some (.str "p")) 700 600 [] :=
  c6_lazy_lifetime_expiry.2.1 (some (.str "u")) (some (.str "p")) 700 600 []
    { freshHandle 5 with connectionTime := some 0 } rfl (by decide)

lemma scan1_found_split (b p : Option PyVal) (n m : Nat) (mh : Handle)
    (post : List Handle) (hma : mh.active = false) (hml : getLifetime n mh ≤ m)
    (hmw : mh.who = b) (hmcr : mh.cred = p) :
    ∀ pre : List Handle,
      (∀ x ∈ pre, ¬(x.active = false ∧ getLifetime n x ≤ m ∧ x.who = b ∧ x.cred = p)) →
      scan1 b p n m (pre ++ mh :: post) =
        .found { mh with active := true }
          ((pre.filter (fun x => x.active || !decide (m < getLifetime n x))) ++
            { mh with active := true } :: post) := by
  intro pre
  induction pre with
  | nil =>
    intro _
    simp only [List.nil_append, List.filter_nil]
    exact scan1_cons_exact b p n m post hma (by omega) ⟨hmw, hmcr⟩
  | cons x pre2 ih =>
    intro hpre
    have hx := hpre x (List.mem_cons_self x pre2)
    have hrest := ih (fun y hy => hpre y (List.mem_cons_of_mem x hy))
    by_cases hxa : x.active = true
    · rw [List.cons_append, scan1_cons_active b p n m (pre2 ++ mh :: post) hxa, hrest]
      have hf : (x.active || !decide (m < getLifetime n x)) = true := by
        rw [hxa]
        rfl
      simp [List.filter_cons, hf]
    · have hxa2 : x.active = false := by
        revert hxa
        cases x.active <;> simp
      by_cases hxl : m < getLifetime n x
      · rw [List.cons_append, scan1_cons_expired b p n m (pre2 ++ mh :: post) hxa2 hxl,
          hrest]
        have hf : (x.active || !decide (m < getLifetime n x)) = false := by
          rw [hxa2]
          simp [hxl]
        simp [List.filter_cons, hf]
      · have hxw : ¬(x.who = b ∧ x.cred = p) := by
          intro hwc
          exact hx ⟨hxa2, by omega, hwc.1, hwc.2⟩
        rw [List.cons_append, scan1_cons_cand b p n m (pre2 ++ mh :: post) hxa2 hxl hxw,
          hrest]
        have hf : (x.active || !decide (m < getLifetime n x)) = true := by
          rw [hxa2]
          simp [hxl]
        simp [List.filter_cons, hf]

lemma scan1_revPool_mem_active (b p : Option PyVal) (n m : Nat) :
    ∀ (rev : List Handle) (h : Handle), h ∈ rev → h.active = true →
      h ∈ (scan1 b p n m rev).revPool := by
  intro rev
  induction rev with
  | nil => intro h hm; cases hm
  | cons x rest ih =>
    intro h hm ha
    by_cases hxa : x.active = true
    · rw [scan1_cons_active b p n m rest hxa]
      cases hr : scan1 b p n m rest with
      | found sel2 r2 =>
        rcases List.mem_cons.mp hm with rfl | hm2
        · simp [Scan1Out.revPool]
        · have := ih h hm2 ha
          rw [hr] at this
          simp only [Scan1Out.revPool] at this ⊢
          exact List.mem_cons_of_mem x this
      | miss r2 i2 =>
        rcases List.mem_cons.mp hm with rfl | hm2
        · simp [Scan1Out.revPool]
        · have := ih h hm2 ha
          rw [hr] at this
          simp only [Scan1Out.revPool] at this ⊢
          exact List.mem_cons_of_mem x this
    · have hxa2 : x.active = false := by
        revert hxa
        cases x.active <;> simp
      have hm2 : h ∈ rest := by
        rcases List.mem_cons.mp hm with rfl | hm2
        · rw [ha] at hxa2
          cases hxa2
        · exact hm2
      by_cases hxl : m < getLifetime n x
      · rw [scan1_cons_expired b p n m rest hxa2 hxl]
        exact ih h hm2 ha
      · by_cases hxw : x.who = b ∧ x.cred = p
        · rw [scan1_cons_exact b p n m rest hxa2 hxl hxw]
          simp only [Scan1Out.revPool]
          exact List.mem_cons_of_mem _ hm2
        · rw [scan1_cons_cand b p n m rest hxa2 hxl hxw]
          cases hr : scan1 b p n m rest with
          | found sel2 r2 =>
            have := ih h hm2 ha
            rw [hr] at this
            simp only [Scan1Out.revPool] at this ⊢
            exact List.mem_cons_of_mem x this
          | miss r2 i2 =>
            have := ih h hm2 ha
            rw [hr] at this
            simp only [Scan1Out.revPool] at this ⊢
            exact List.mem_cons_of_mem x this

lemma scan1_miss_sublists (b p : Option PyVal) (n m : Nat) :
    ∀ (rev rev2 inact : List Handle), scan1 b p n m rev = .miss rev2 inact →
      rev2.Sublist rev ∧ inact.Sublist rev ∧ ∀ c ∈ inact, c.active = false := by
  intro rev
  induction rev with
  | nil =>
    intro rev2 inact heq
    simp only [scan1] at heq
    injection heq with h1 h2
    subst h1
    subst h2
    exact ⟨List.Sublist.refl [], List.Sublist.refl [], fun c hc => absurd hc (by simp)⟩
  | cons x rest ih =>
    intro rev2 inact heq
    by_cases hxa : x.active = true
    · rw [scan1_cons_active b p n m rest hxa] at heq
      cases hr : scan1 b p n m rest with
      | found sel2 r2 =>
        rw [hr] at heq
        exact Scan1Out.noConfusion heq
      | miss r2 i2 =>
        rw [hr] at heq
        injection heq with h1 h2
        subst h1
        subst h2
        rcases ih r2 i2 hr with ⟨hs1, hs2, hs3⟩
        exact ⟨List.Sublist.cons₂ x hs1, List.Sublist.cons x hs2, hs3⟩
    · have hxa2 : x.active = false := by
        revert hxa
        cases x.active <;> simp
      by_cases hxl : m < getLifetime n x
      · rw [scan1_cons_expired b p n m rest hxa2 hxl] at heq
        rcases ih rev2 inact heq with ⟨hs1, hs2, hs3⟩
        exact ⟨List.Sublist.cons x hs1, List.Sublist.cons x hs2, hs3⟩
      · by_cases hxw : x.who = b ∧ x.cred = p
        · rw [scan1_cons_exact b p n m rest hxa2 hxl hxw] at heq
          exact Scan1Out.noConfusion heq
        · rw [scan1_cons_cand b p n m rest hxa2 hxl hxw] at heq
          cases hr : scan1 b p n m rest with
          | found sel2 r2 =>
            rw [hr] at heq
            exact Scan1Out.noConfusion heq
          | miss r2 i2 =>
            rw [hr] at heq
            injection heq with h1 h2
            subst h1
            subst h2
            rcases ih r2 i2 hr with ⟨hs1, hs2, hs3⟩
            refine ⟨List.Sublist.cons₂ x hs1, List.Sublist.cons₂ x hs2, ?_⟩
            intro c hc
            rcases List.mem_cons.mp hc with rfl | hc2
            · exact hxa2
            · exact hs3 c hc2

lemma scan1_found_sel_src (b p : Option PyVal) (n m : Nat) :
    ∀ (rev rev2 : List Handle) (sel : Handle), scan1 b p n m rev = .found sel rev2 →
      ∃ h0 ∈ rev, h0.active = false ∧ sel = { h0 with active := true } := by
  intro rev
  induction rev with
  | nil => intro rev2 sel heq; simp [scan1] at heq
  | cons x rest ih =>
    intro rev2 sel heq
    by_cases hxa : x.active = true
    · rw [scan1_cons_active b p n m rest hxa] at heq
      cases hr : scan1 b p n m rest with
      | found sel2 r2 =>
        rw [hr] at heq
        injection heq with h1 _
        subst h1
        rcases ih r2 sel2 hr with ⟨h0, hm0, ha0, he0⟩
        exact ⟨h0, List.mem_cons_of_mem x hm0, ha0, he0⟩
      | miss r2 i2 =>
        rw [hr] at heq
        exact Scan1Out.noConfusion heq
    · have hxa2 : x.active = false := by
        revert hxa
        cases x.active <;> simp
      by_cases hxl : m < getLifetime n x
      · rw [scan1_cons_expired b p n m rest hxa2 hxl] at heq
        rcases ih rev2 sel heq with ⟨h0, hm0, ha0, he0⟩
        exact ⟨h0, List.mem_cons_of_mem x hm0, ha0, he0⟩
      · by_cases hxw : x.who = b ∧ x.cred = p
        · rw [scan1_cons_exact b p n m rest hxa2 hxl hxw] at heq
          injection heq with h1 _
          exact ⟨x, List.mem_cons_self x rest, hxa2, h1.symm⟩
        · rw [scan1_cons_cand b p n m rest hxa2 hxl hxw] at heq
          cases hr : scan1 b p n m rest with
          | found sel2 r2 =>
            rw [hr] at heq
            injection heq with h1 _
            subst h1
            rcases ih r2 sel2 hr with ⟨h0, hm0, ha0, he0⟩
            exact ⟨h0, List.mem_cons_of_mem x hm0, ha0, he0⟩
          | miss r2 i2 =>
            rw [hr] at heq
            exact Scan1Out.noConfusion heq

lemma doBind_cid (b p : Option PyVal) (n : Nat) (h : Handle) :
    (doBind b p n h).cid = h.cid := by
  cases b <;> rfl

lemma removeCid_mem_of_ne (k : Nat) :
    ∀ (l : List Handle) (x : Handle), x ∈ l → x.cid ≠ k → x ∈ removeCid k l := by
  intro l
  induction l with
  | nil => intro x hx; cases hx
  | cons a rest ih =>
    intro x hx hne
    by_cases hc : a.cid = k
    · simp only [removeCid, hc, if_true]
      rcases List.mem_cons.mp hx with rfl | hx2
      · exact absurd hc hne
      · exact hx2
    · simp only [removeCid, hc, if_false, List.mem_cons]
      rcases List.mem_cons.mp hx with rfl | hx2
      · exact Or.inl rfl
      · exact Or.inr (ih x hx2 hne)

lemma replaceCid_mem_of_ne (k : Nat) (v : Handle) :
    ∀ (l : List Handle) (x : Handle), x ∈ l → x.cid ≠ k → x ∈ replaceCid k v l := by
  intro l
  induction l with
  | nil => intro x hx; cases hx
  | cons a rest ih =>
    intro x hx hne
    by_cases hc : a.cid = k
    · simp only [replaceCid, hc, if_true, List.mem_cons]
      rcases List.mem_cons.mp hx with rfl | hx2
      · exact absurd hc hne
      · exact Or.inr hx2
    · simp only [replaceCid, hc, if_false, List.mem_cons]
      rcases List.mem_cons.mp hx with rfl | hx2
      · exact Or.inl rfl
      · exact Or.inr (ih x hx2 hne)

lemma rebindLoop_mem_kept (b p : Option PyVal) (n : Nat) (ro : Nat → Bool) :
    ∀ (cs rev : List Handle) (x : Handle), x ∈ rev → (∀ c ∈ cs, c.cid ≠ x.cid) →
      x ∈ (rebindLoop b p n ro rev cs).1 := by
  intro cs
  induction cs with
  | nil => intro rev x hx _; exact hx
  | cons c cs2 ih =>
    intro rev x hx hne
    have hcx : c.cid ≠ x.cid := hne c (List.mem_cons_self c cs2)
    by_cases hro : ro c.cid = true
    · simp only [rebindLoop, hro, if_true]
      exact replaceCid_mem_of_ne c.cid (doBind b p n c) rev x hx (fun he => hcx he.symm)
    · simp only [rebindLoop, hro, Bool.false_eq_true, if_false]
      refine ih (removeCid c.cid rev) x ?_ (fun c2 hc2 => hne c2 (List.mem_cons_of_mem c hc2))
      exact removeCid_mem_of_ne c.cid rev x hx (fun he => hcx he.symm)

lemma rebindLoop_mem_src (b p : Option PyVal) (n : Nat) (ro : Nat → Bool) :
    ∀ (cs rev : List Handle) (z : Handle), z ∈ (rebindLoop b p n ro rev cs).1 →
      z ∈ rev ∨ ∃ c2 ∈ cs, z = doBind b p n c2 := by
  intro cs
  induction cs with
  | nil => intro rev z hz; exact Or.inl hz
  | cons c cs2 ih =>
    intro rev z hz
    by_cases hro : ro c.cid = true
    · simp only [rebindLoop, hro, if_true] at hz
      rcases replaceCid_mem_src c.cid (doBind b p n c) rev z hz with hl | ⟨he, _⟩
      · exact Or.inl hl
      · exact Or.inr ⟨c, List.mem_cons_self c cs2, he⟩
    · simp only [rebindLoop, hro, Bool.false_eq_true, if_false] at hz
      rcases ih (removeCid c.cid rev) z hz with hl | ⟨c2, hc2, he⟩
      · exact Or.inl ((removeCid_sublist c.cid rev).mem hl)
      · exact Or.inr ⟨c2, List.mem_cons_of_mem c hc2, he⟩

lemma removeCid_no_cid (k : Nat) :
    ∀ l : List Handle, (l.map Handle.cid).Nodup → ∀ z ∈ removeCid k l, z.cid ≠ k := by
  intro l
  induction l with
  | nil => intro _ z hz; cases hz
  | cons a rest ih =>
    intro hnd z hz
    rw [List.map_cons, List.nodup_cons] at hnd
    by_cases hc : a.cid = k
    · simp only [removeCid, hc, if_true] at hz
      intro hzk
      apply hnd.1
      have : a.cid = z.cid := by rw [hc, hzk]
      rw [this]
      exact List.mem_map_of_mem Handle.cid hz
    · simp only [removeCid, hc, if_false, List.mem_cons] at hz
      rcases hz with rfl | hz2
      · exact hc
      · exact ih hnd.2 z hz2

lemma rebindLoop_spec (b p : Option PyVal) (n : Nat) (ro : Nat → Bool) :
    ∀ (cpre : List Handle) (c : Handle) (cpost rev : List Handle),
      (∀ x ∈ cpre, ro x.cid = false) → ro c.cid = true →
      (rebindLoop b p n ro rev (cpre ++ c :: cpost)).2 = some (doBind b p n c) ∧
      ((rev.map Handle.cid).Nodup → (((cpre ++ c :: cpost)).map Handle.cid).Nodup →
        ∀ x ∈ cpre, ∀ z ∈ (rebindLoop b p n ro rev (cpre ++ c :: cpost)).1,
          z.cid ≠ x.cid) := by
  intro cpre
  induction cpre with
  | nil =>
    intro c cpost rev _ hroc
    constructor
    · simp [rebindLoop, hroc]
    · intro _ _ x hx
      cases hx
  | cons x0 cpre2 ih =>
    intro c cpost rev hfail hroc
    have hx0 : ro x0.cid = false := hfail x0 (List.mem_cons_self x0 cpre2)
    have hfail2 : ∀ x ∈ cpre2, ro x.cid = false :=
      fun x hx => hfail x (List.mem_cons_of_mem x0 hx)
    have hred : rebindLoop b p n ro rev ((x0 :: cpre2) ++ c :: cpost) =
        rebindLoop b p n ro (removeCid x0.cid rev) (cpre2 ++ c :: cpost) := by
      simp [rebindLoop, hx0]
    rw [hred]
    have hih := ih c cpost (removeCid x0.cid rev) hfail2 hroc
    refine ⟨hih.1, ?_⟩
    intro hndrev hndcs x hx z hz
    have hndrev2 : ((removeCid x0.cid rev).map Handle.cid).Nodup :=
      List.Nodup.sublist ((removeCid_sublist x0.cid rev).map Handle.cid) hndrev
    rw [List.cons_append, List.map_cons, List.nodup_cons] at hndcs
    rcases List.mem_cons.mp hx with heq0 | hx2
    · rw [heq0]
      rcases rebindLoop_mem_src b p n ro (cpre2 ++ c :: cpost)
        (removeCid x0.cid rev) z hz with hl | ⟨c2, hc2, he⟩
      · exact removeCid_no_cid x0.cid rev hndrev z hl
      · rw [he, doBind_cid]
        intro hcontra
        apply hndcs.1
        rw [← hcontra]
        exact List.mem_map_of_mem Handle.cid hc2
    · exact hih.2 hndrev2 hndcs.2 x hx2 z hz

/-! ### Claim C2 -/

/-- C2: the `_match` scan runs in a single pass over `members` in
reverse insertion order.  (1) Active handles are skipped: with distinct
object identities every active member survives the call.  (2) The first
(newest-first) idle, unexpired handle whose stored `(who, cred)` equals
the requested pair is marked active and returned immediately — the
members on the older side of it are left untouched, while the scanned
newer side only loses its expired idle handles — and no rebinding
happens.  (3) Whatever `_match` returns came from an idle member, either
an exact match marked active or a candidate rebound with the requested
credentials.  (4) When the scan ends with no exact match, the remembered
candidates are rebound in scan order: the first whose rebind succeeds is
returned (rebound with the requested identity and credential), and every
candidate before it, whose rebind failed, has been removed from the pool
before it was tried. -/
theorem c2_match_scan :
    (∀ (b p : Option PyVal) (n m : Nat) (ro : Nat → Bool)
        (pool pre post : List Handle) (mh : Handle),
      pool.reverse = pre ++ mh :: post →
      (∀ x ∈ pre, ¬(x.active = false ∧ getLifetime n x ≤ m ∧ x.who = b ∧ x.cred = p)) →
      mh.active = false → getLifetime n mh ≤ m → mh.who = b → mh.cred = p →
      matchConn b p n m ro pool =
        (((pre.filter (fun x => x.active || !decide (m < getLifetime n x))) ++
          { mh with active := true } :: post).reverse,
          some { mh with active := true })) ∧
    (∀ (b p : Option PyVal) (n m : Nat) (ro : Nat → Bool) (pool : List Handle),
      (pool.map Handle.cid).Nodup →
      ∀ h ∈ pool, h.active = true → h ∈ (matchConn b p n m ro pool).1) ∧
    (∀ (b p : Option PyVal) (n m : Nat) (ro : Nat → Bool) (pool : List Handle)
        (c : Handle),
      (matchConn b p n m ro pool).2 = some c →
      ∃ h0 ∈ pool, h0.active = false ∧
        (c = { h0 with active := true } ∨ c = doBind b p n h0)) ∧
    (∀ (b p : Option PyVal) (n m : Nat) (ro : Nat → Bool)
        (pool rev2 inact cpre cpost : List Handle) (c : Handle),
      scan1 b p n m pool.reverse = .miss rev2 inact →
      inact = cpre ++ c :: cpost →
      (∀ x ∈ cpre, ro x.cid = false) → ro c.cid = true →
      (matchConn b p n m ro pool).2 = some (doBind b p n c) ∧
      ((pool.map Handle.cid).Nodup →
        ∀ x ∈ cpre, ∀ z ∈ (matchConn b p n m ro pool).1, z.cid ≠ x.cid)) := by
  refine ⟨?_, ?_, ?_, ?_⟩
  · intro b p n m ro pool pre post mh hrev hpre hma hml hmw hmcr
    have hs := scan1_found_split b p n m mh post hma hml hmw hmcr pre hpre
    unfold matchConn
    rw [hrev, hs]
  · intro b p n m ro pool hnd h hm ha
    have hmr : h ∈ pool.reverse := List.mem_reverse.mpr hm
    have hkept := scan1_revPool_mem_active b p n m pool.reverse h hmr ha
    cases hr : scan1 b p n m pool.reverse with
    | found sel2 r2 =>
      rw [hr] at hkept
      simp only [Scan1Out.revPool] at hkept
      have hmc : matchConn b p n m ro pool = (r2.reverse, some sel2) := by
        unfold matchConn
        rw [hr]
      rw [hmc]
      simpa using hkept
    | miss r2 i2 =>
      rw [hr] at hkept
      simp only [Scan1Out.revPool] at hkept
      have hmc : matchConn b p n m ro pool =
          ((rebindLoop b p n ro r2 i2).1.reverse, (rebindLoop b p n ro r2 i2).2) := by
        unfold matchConn
        rw [hr]
      rw [hmc]
      rcases scan1_miss_sublists b p n m pool.reverse r2 i2 hr with ⟨_, hsi, hinact⟩
      have hne : ∀ cI ∈ i2, cI.cid ≠ h.cid := by
        intro cI hcI hcontra
        have hcIp : cI ∈ pool := List.mem_reverse.mp (hsi.mem hcI)
        have hceq : cI = h := List.inj_on_of_nodup_map hnd hcIp hm hcontra
        have hfa := hinact cI hcI
        rw [hceq, ha] at hfa
        exact Bool.noConfusion hfa
      simp only [List.mem_reverse]
      exact rebindLoop_mem_kept b p n ro i2 r2 h hkept hne
  · intro b p n m ro pool c heq
    cases hr : scan1 b p n m pool.reverse with
    | found sel2 r2 =>
      have hmc : matchConn b p n m ro pool = (r2.reverse, some sel2) := by
        unfold matchConn
        rw [hr]
      rw [hmc] at heq
      simp only at heq
      injection heq with h1
      subst h1
      rcases scan1_found_sel_src b p n m pool.reverse r2 sel2 hr with ⟨h0, hm0, ha0, he0⟩
      exact ⟨h0, List.mem_reverse.mp hm0, ha0, Or.inl he0⟩
    | miss r2 i2 =>
      have hmc : matchConn b p n m ro pool =
          ((rebindLoop b p n ro r2 i2).1.reverse, (rebindLoop b p n ro r2 i2).2) := by
        unfold matchConn
        rw [hr]
      rw [hmc] at heq
      simp only at heq
      rcases hrl : rebindLoop b p n ro r2 i2 with ⟨rl1, rl2⟩
      rw [hrl] at heq
      simp only at heq
      subst heq
      rcases rebindLoop_sel_src b p n ro i2 r2 rl1 c hrl with ⟨c0, hc0, he0⟩
      rcases scan1_miss_sublists b p n m pool.reverse r2 i2 hr with ⟨_, hsi, hinact⟩
      exact ⟨c0, List.mem_reverse.mp (hsi.mem hc0), hinact c0 hc0, Or.inr he0⟩
  · intro b p n m ro pool rev2 inact cpre cpost c hscan hinact hfail hroc
    subst hinact
    have hmc : matchConn b p n m ro pool =
        ((rebindLoop b p n ro rev2 (cpre ++ c :: cpost)).1.reverse,
          (rebindLoop b p n ro rev2 (cpre ++ c :: cpost)).2) := by
      unfold matchConn
      rw [hscan]
    have hspec := rebindLoop_spec b p n ro cpre c cpost rev2 hfail hroc
    constructor
    · rw [hmc]
      exact hspec.1
    · intro hnd x hx z hz
      rw [hmc] at hz
      simp only [List.mem_reverse] at hz
      rcases scan1_miss_sublists b p n m pool.reverse rev2 (cpre ++ c :: cpost)
        hscan with ⟨hsr, hsi, _⟩
      have hndrev : (rev2.map Handle.cid).Nodup := by
        refine List.Nodup.sublist (hsr.map Handle.cid) ?_
        simpa using hnd
      have hndcs : (((cpre ++ c :: cpost)).map Handle.cid).Nodup := by
        refine List.Nodup.sublist (hsi.map Handle.cid) ?_
        simpa using hnd
      exact hspec.2 hndrev hndcs x hx z hz

/-- C2 witness: a pool whose newest member is checked out and whose
older member exactly matches the requested credentials; the match
returns the older member marked active, leaving the active one in
place. -/
theorem c2_match_scan_witness :
    matchConn (some (.str "u")) (some (.str "p")) 10 600 (fun _ => false)
      [demoIdle, { freshHandle 1 with active := true }] =
      ((([{ freshHandle 1 with active := true }].filter
          (fun x : Handle => x.active || !decide (600 < getLifetime 10 x))) ++
        { demoIdle with active := true } :: []).reverse,
        some { demoIdle with active := true }) :=
  c2_match_scan.1 (some (.str "u")) (some (.str "p")) 10 600 (fun _ => false)
    [demoIdle, { freshHandle 1 with active := true }]
    [{ freshHandle 1 with active := true }] [] demoIdle
    (by decide) (by decide) rfl (by decide) rfl rfl

/-! ### Claim C8 -/

/-- C8: for every sequence of public operations starting from the empty
pool, `len(members) <= capacity` holds afterwards (hence before and
after every operation of any sequence, prefixes included); and a new
connector is appended only when the capacity check did not fire — when
it does fire, `_get_connection` leaves the pool exactly as the match
left it and appends nothing. -/
theorem c8_capacity_invariant :
    (∀ cfg : Config, cfg.usePool = true →
      ∀ ops : List Op, ((runOps cfg ops).pool).length ≤ cfg.size) ∧
    (∀ (cfg : Config) (b p : Option PyVal) (se : StepEnv) (st : PoolState)
        (mp : List Handle),
      cfg.usePool = true →
      matchConn (effCred cfg.bind b) (effCred cfg.passwd p) se.now
        cfg.maxLifetime se.rebindOk st.pool = (mp, none) →
      cfg.size ≤ mp.length →
      ((getConnection cfg b p se st).1).pool = mp) := by
  constructor
  · intro cfg _ ops
    exact runOps_foldl_pool_le cfg ops initState (by simp [initState])
  · intro cfg b p se st mp hup hmatch hlen
    rw [getConnection_of_match_none cfg b p se st mp hup hmatch hlen]

/-- C8 witness: two acquisitions against capacity 1 leave at most one
pooled member. -/
theorem c8_capacity_invariant_witness :
    ((runOps wCfg [.acq wEnv, .acq wEnv]).pool).length ≤ wCfg.size :=
  c8_capacity_invariant.1 wCfg rfl [.acq wEnv, .acq wEnv]

/-! ### Claim C10 -/

/-- C10: in every state reachable through the public operations from the
empty pool, `purge` leaves the state unchanged: with pooling enabled it
returns before touching the pool, and with pooling disabled the pool is
always empty because `_get_connection` never appends the connectors it
creates. -/
theorem c10_purge_never_changes_state :
    ∀ (cfg : Config) (ops : List Op) (b : PyVal) (p : Option PyVal),
      runOp cfg (runOps cfg ops) (.purge b p) = runOps cfg ops := by
  intro cfg ops b p
  by_cases hup : cfg.usePool = true
  · simp only [runOp, purgeFn, hup, if_true]
  · have hnp : cfg.usePool = false := by
      revert hup
      cases cfg.usePool <;> simp
    have hpool := runOps_pool_nil cfg hnp ops initState (by simp [initState])
    rcases hrw : runOps cfg ops with ⟨pl, nc⟩
    have hpl : pl = [] := by
      have : (runOps cfg ops).pool = pl := by
        rw [hrw]
      rw [← this]
      exact hpool
    subst hpl
    simp [runOp, purgeFn, hnp]

/-- C1 (counterexample): the claim says the eviction step of the
acquisition retry loop removes the *oldest-inserted* currently idle
member.  On a pool of two idle handles (handle 0 inserted first) the
step (`evictOne`, translating lines 365–371) removes handle 1, the
newest one, while removing the oldest idle (`evictOldestIdleSpec`,
written from the claim's words) would remove handle 0. -/
theorem c1_oldest_idle_counterexample :
    evictOne [freshHandle 0, freshHandle 1] = [freshHandle 0] ∧
    evictOldestIdleSpec [freshHandle 0, freshHandle 1] = [freshHandle 1] ∧
    ([freshHandle 0] : List Handle) ≠ [freshHandle 1] := by
  decide

/-- C1 (amended): in the acquisition retry loop, each time creation
reports `PoolExhausted` the engine evicts exactly one handle: the
*newest-inserted* (most recently appended) currently idle member, found
by scanning `members` from the end backward and removing the first
handle with `active == false`; when every member is active nothing is
evicted; and the retry loop performs exactly this step on the pool
before retrying. -/
theorem c1_evicts_newest_idle :
    (∀ (xs : List Handle) (y : Handle) (zs : List Handle),
      y.active = false → (∀ z ∈ zs, z.active = true) →
      evictOne (xs ++ y :: zs) = xs ++ zs) ∧
    (∀ pool : List Handle, (∀ h ∈ pool, h.active = true) → evictOne pool = pool) ∧
    (∀ cfg env tries fuel st,
      (getConnection cfg env.bind env.passwd (env.steps tries) st).2 = .maxReached →
      acquireLoop cfg env tries (fuel + 1) st =
        acquireLoop cfg env (tries + 1) fuel
          (evictState (getConnection cfg env.bind env.passwd (env.steps tries) st).1)) := by
  refine ⟨fun xs y zs hy hzs => evictOne_split xs y zs hy hzs,
    fun pool hall => evictOne_allActive pool hall, ?_⟩
  intro cfg env tries fuel st h
  simp only [acquireLoop, h]

/-- C1 witness: the amended eviction behaviour at a concrete pool of two
idle handles. -/
theorem c1_evicts_newest_idle_witness :
    evictOne ([freshHandle 0] ++ freshHandle 1 :: []) = [freshHandle 0] ++ [] :=
  c1_evicts_newest_idle.1 [freshHandle 0] (freshHandle 1) [] rfl (by decide)

/-! ### Claim C4 -/

/-- C4: with pooling enabled, when matching found no handle and the
(post-match) member count has reached capacity, `_get_connection` fails
with `MaxConnectionReachedError` — an outcome distinct by construction
from a connection-establishment failure; and when every member is active
and the pool is at capacity, every acquisition attempt ends this way, no
idle handle can be evicted, and after `retry_max` attempts
`MaxConnectionReachedError` is the final caller-visible failure of the
`connection` entry point. -/
theorem c4_pool_exhausted_final :
    (∀ cfg bind passwd se st mp,
      cfg.usePool = true →
      matchConn (effCred cfg.bind bind) (effCred cfg.passwd passwd)
        se.now cfg.maxLifetime se.rebindOk st.pool = (mp, none) →
      cfg.size ≤ mp.length →
      getConnection cfg bind passwd se st = ({ st with pool := mp }, .maxReached)) ∧
    (GetOutcome.maxReached ≠ GetOutcome.createFailed ∧
      AcquireResult.exhausted ≠ AcquireResult.createFailed) ∧
    (∀ cfg env st,
      cfg.usePool = true → (∀ h ∈ st.pool, h.active = true) →
      cfg.size ≤ st.pool.length →
      acquire cfg env st = (st, .exhausted)) := by
  refine ⟨?_, ⟨by simp, by simp⟩, ?_⟩
  · intro cfg bind passwd se st mp hup hmatch hlen
    exact getConnection_of_match_none cfg bind passwd se st mp hup hmatch hlen
  · intro cfg env st hup hall hlen
    exact acquireLoop_allActive cfg env st hup hall hlen cfg.retryMax 0

/-- C4 witness: a pool of one active handle at capacity 1; acquisition
ends in `MaxConnectionReachedError`. -/
theorem c4_pool_exhausted_final_witness :
    acquire wCfg wEnv wActiveState = (wActiveState, .exhausted) :=
  c4_pool_exhausted_final.2.2 wCfg wEnv wActiveState rfl (by decide) (by decide)

/-! ### Claim C7 -/

/-- C7: `_release_connection` with pooling disabled marks the handle
inactive and unbinds it immediately; with pooling enabled a handle whose
connection reports itself not connected is removed from `members` (its
identity no longer present) and not returned to the idle set, while a
connected handle merely has `active` cleared, stays pooled (same member
count, the cleared handle present), and no unbind is performed. -/
theorem c7_release :
    ∀ (h : Handle) (pool : List Handle),
      (releaseConnection false h pool =
        { pool := pool, handle := applyUnbind { h with active := false },
          didUnbind := true }) ∧
      (h.connected = false →
        releaseConnection true h pool =
          { pool := removeCid h.cid pool, handle := applyUnbind h,
            didUnbind := true } ∧
        ((pool.map Handle.cid).Nodup → h ∈ pool →
          ∀ x ∈ (releaseConnection true h pool).pool, x.cid ≠ h.cid)) ∧
      (h.connected = true →
        releaseConnection true h pool =
          { pool := replaceCid h.cid { h with active := false } pool,
            handle := { h with active := false }, didUnbind := false } ∧
        (releaseConnection true h pool).pool.length = pool.length ∧
        (h ∈ pool → { h with active := false } ∈ (releaseConnection true h pool).pool)) := by
  intro h pool
  refine ⟨rfl, fun hc => ⟨by simp [releaseConnection, hc], ?_⟩, fun hc => ⟨?_, ?_, ?_⟩⟩
  · intro hnd hm x hx
    simp only [releaseConnection, hc, if_true, if_false, Bool.false_eq_true] at hx
    exact removeCid_cid_not_mem h pool hnd hm x hx
  · simp [releaseConnection, hc]
  · simp [releaseConnection, hc, replaceCid_length]
  · intro hm
    simp only [releaseConnection, hc, if_true]
    exact replaceCid_mem_self _ h pool hm

/-- C7 witness: releasing a connected handle from a pooled manager keeps
it pooled, inactive, with no unbind. -/
theorem c7_release_witness :
    releaseConnection true { freshHandle 0 with connected := true, active := true }
      [{ freshHandle 0 with connected := true, active := true }] =
    { pool := [{ freshHandle 0 with connected := true, active := false }],
      handle := { freshHandle 0 with connected := true, active := false },
      didUnbind := false } :=
  ((c7_release { freshHandle 0 with connected := true, active := true }
    [{ freshHandle 0 with connected := true, active := true }]).2.2 rfl).1

/-! ### Claim C9 -/

/-- C9: `purge` leaves the pool unchanged when pooling is enabled; with
pooling disabled a handle stays in the pool iff it was there and it is
not purged, where a handle is purged iff its stored identity equals the
given one and, when a credential is given, its stored credential differs
from the UTF-8 encoding of that credential (every identity-matching
handle is purged when no credential is given); surviving handles are
kept in order, untouched (the result is a sublist of the pool). -/
theorem c9_purge :
    ∀ (b : PyVal) (pool : List Handle),
      (∀ p, purgeFn true b p pool = pool) ∧
      (∀ pw conn, conn ∈ purgeFn false b (some pw) pool ↔
        (conn ∈ pool ∧ ¬(conn.who = some b ∧ conn.cred ≠ some (utf8Encode pw)))) ∧
      (∀ conn, conn ∈ purgeFn false b none pool ↔
        (conn ∈ pool ∧ ¬conn.who = some b)) ∧
      (∀ p, (purgeFn false b p pool).Sublist pool) := by
  intro b pool
  refine ⟨fun p => rfl, fun pw conn => ?_, fun conn => ?_, fun p => ?_⟩
  · rw [show purgeFn false b (some pw) pool = pool.filter (purgeKeep b (some pw)) from rfl,
      List.mem_filter, purgeKeep_some_iff]
    constructor
    · rintro ⟨hm, hk⟩
      refine ⟨hm, ?_⟩
      rintro ⟨hwho, hcred⟩
      rcases hk with hk | hk
      · exact hk hwho
      · exact hcred hk
    · rintro ⟨hm, hk⟩
      refine ⟨hm, ?_⟩
      by_cases hwho : conn.who = some b
      · right
        by_contra hcred
        exact hk ⟨hwho, hcred⟩
      · exact Or.inl hwho
  · rw [show purgeFn false b none pool = pool.filter (purgeKeep b none) from rfl,
      List.mem_filter, purgeKeep_none_iff]
  · rw [show purgeFn false b p pool = pool.filter (purgeKeep b p) from rfl]
    exact pool.filter_sublist

/-- C9 witness: purging identity `u` with a credential keeps the handle
whose stored credential matches the encoding and drops the one whose
credential differs. -/
theorem c9_purge_witness :
    { freshHandle 0 with who := some (.str "u"), cred := some (.bytes [112]) } ∈
      purgeFn false (.str "u") (some (.str "p"))
        [{ freshHandle 0 with who := some (.str "u"), cred := some (.bytes [112]) },
         { freshHandle 1 with who := some (.str "u"), cred := some (.bytes [113]) }] :=
  ((c9_purge (.str "u")
    [{ freshHandle 0 with who := some (.str "u"), cred := some (.bytes [112]) },
     { freshHandle 1 with who := some (.str "u"), cred := some (.bytes [113]) }]).2.1
    (.str "p")
    { freshHandle 0 with who := some (.str "u"), cred := some (.bytes [112]) }).mpr
    (by decide)

